import Mathlib

/-!
Verification development for the interactive cursor/span engine of
`cursortools.py` (repository `mpl-cursortools`).

The Python module is embedded shallowly:

* Python strings are Lean `String`s (a `String` is a list of `Char`s);
  the two regular expressions the module uses on cursor labels,
  `re.search(r'\((\d+)\)', s)` and `re.sub(r'\(\d+\)', '', s)`, are
  implemented as explicit character-list scans (`scanTok`, `stripSub`).
* The per-axes state (`ax.curlist`, `ax.spanlist`) is a `Registry`:
  an ordered list of `Cursor` records plus an ordered list of `Span`
  records.  Python object references are modelled by the `ident`
  field (the code itself stores `self.ident = id(self)`); spans refer
  to their two endpoint cursors by `ident`.
* Matplotlib artists are tracked only as far as the module itself
  reads them back: the cursor line's x position (`cline`), the tag
  text (`tag.get_text()`), and the span polygon's vertex list
  (`vspan.set_xy` / `axvspan`).  Purely visual attributes (line
  style, blended transforms, redraws) are not part of the state.
* Functions that can raise a Python exception return `Except PyErr`
  or `Option` (`none` = the call raises and the surrounding program
  aborts); total functions stay total.
* The tabular I/O layer (pandas `to_csv` / `read_csv`) is external to
  the module; a saved record is modelled as a typed list of `Row`s
  with the column types documented in `savecurinfo` (id int, tag
  string, xpos scalar, type vertical|vertspan, mode interact|fixed,
  color string).  One observable quirk of that layer is kept: an
  empty DataFrame has no columns, so `savecurinfo` raises on an
  empty cursor list.
-/

deriving instance DecidableEq for Except

namespace Cursortools

/-- Python exception kinds raised by the code paths modelled here. -/
inductive PyErr
  | attributeError
  | typeError
  | indexError
  | unboundLocal
  deriving DecidableEq, Repr

/-- Cursor interaction mode, the value of the `mode` field set by
`DragCursor.set_mode` (the strings `interact` and `fixed`). -/
inductive Mode
  | interact
  | fixed
  deriving DecidableEq, Repr

/-- Cursor orientation, the value of the `orient` field: a standalone
vertical cursor (`vertical`) or one endpoint of a span (`vertspan`). -/
inductive Orient
  | vertical
  | vertspan
  deriving DecidableEq, Repr

/-! ### Decimal digits and the two label regular expressions -/

/-- Numeric value of a decimal digit character. -/
def digitVal (c : Char) : Nat := c.toNat - 48

/-- Value of a list of decimal digit characters, as Python `int()` on a
matched digit group. -/
def digitsVal (ds : List Char) : Nat := ds.foldl (fun a c => 10 * a + digitVal c) 0

/-- Greedy scan of leading decimal digits, the regex atom `\d+`
(greediness never backtracks here because the character after the
digits must be a closing parenthesis, which is not a digit). -/
def takeDigits : List Char → List Char × List Char
  | [] => ([], [])
  | c :: cs =>
    if c.isDigit then
      let p := takeDigits cs
      (c :: p.1, p.2)
    else ([], c :: cs)

/-- First match of the regular expression `\((\d+)\)`: the digit group
at the leftmost position where an opening parenthesis is followed by
one or more digits and a closing parenthesis.  This is
`re.search(r'\((\d+)\)', s)` as used by `DragCursor.get_id`,
`DragCursor.set_tag` and `initag`. -/
def scanTok : List Char → Option (List Char)
  | [] => none
  | c :: cs =>
    if c = '(' then
      match takeDigits cs with
      | (d :: ds, ')' :: _) => some (d :: ds)
      | _ => scanTok cs
    else scanTok cs

/-- The head-match splitter used by the substitution: if the string
begins (after an opening parenthesis) with one or more digits and a
closing parenthesis, return the remainder after the match. -/
def tokSplit (cs : List Char) : Option (List Char) :=
  match takeDigits cs with
  | (_ :: _, ')' :: rest) => some rest
  | _ => none

/-- Fuel-driven worker for the substitution; the fuel is an upper
bound on the string length, so the first arm never fires in
`stripSub`. -/
def stripSubGo : Nat → List Char → List Char
  | 0, l => l
  | _ + 1, [] => []
  | fuel + 1, c :: cs =>
    if c = '(' then
      match tokSplit cs with
      | some rest => stripSubGo fuel rest
      | none => c :: stripSubGo fuel cs
    else c :: stripSubGo fuel cs

/-- Removal of every match of `\(\d+\)`, as `re.sub(r'\(\d+\)', '', s)`
in `DragCursor.get_tag`. -/
def stripSub (l : List Char) : List Char := stripSubGo l.length l

/-! ### Decimal rendering, as Python `str(n)` for a nonnegative int -/

/-- Fuel-driven worker for decimal rendering; the fuel is an upper
bound making the first arm unreachable in `natDigits`. -/
def natDigitsGo : Nat → Nat → List Char
  | 0, _ => []
  | fuel + 1, n =>
    if n < 10 then [Char.ofNat (48 + n)]
    else natDigitsGo fuel (n / 10) ++ [Char.ofNat (48 + n % 10)]

/-- Decimal digit characters of a natural number, as Python `str(n)`. -/
def natDigits (n : Nat) : List Char := natDigitsGo (n + 1) n

/-! ### String-level label operations -/

/-- Digit characters of the first embedded id token of a string. -/
def findTok (s : String) : Option (List Char) := scanTok s.data

/-- First embedded id of a label, as the integer value of the group of
`re.search(r'\((\d+)\)', s)`; `none` when the pattern does not match. -/
def parseId (s : String) : Option Nat := (scanTok s.data).map digitsVal

/-- The matched token text (regex group 0) of the first id token,
`'(' + digits + ')'`. -/
def group0 (s : String) : Option String :=
  (scanTok s.data).map (fun ds => ⟨'(' :: (ds ++ [')'])⟩)

/-- Label with every id token removed, `re.sub(r'\(\d+\)', '', s)`. -/
def stripTag (s : String) : String := ⟨stripSub s.data⟩

/-- Whether a string is free of id tokens.  Tag name strings fed to
`set_tag` are clean in the intended use of the module; a non-clean
name shifts which integer the label scan finds. -/
def cleanB (s : String) : Bool := (scanTok s.data).isNone

/-- A label of the shape produced by the module: a prefix followed by
the id token `'(' + str(k) + ')'`. -/
def composeTag (p : String) (k : Nat) : String := ⟨p.data ++ ('(' :: (natDigits k ++ [')']))⟩

/-- Whether a label contains an id token `(digits)` somewhere. -/
def HasTok (s : String) : Prop :=
  ∃ pre ds r : List Char,
    s.data = pre ++ ('(' :: (ds ++ ')' :: r)) ∧ ds ≠ [] ∧ ∀ c ∈ ds, c.isDigit = true

/-- DragCursor.get_id: `re.search(r'\((\d+)\)', text)` followed by
`int(match.group(1))`.  When the search fails, `match` is `None` and
the attribute access `match.group` raises `AttributeError`. -/
def get_id (s : String) : Except PyErr Nat :=
  match scanTok s.data with
  | some ds => .ok (digitsVal ds)
  | none => .error .attributeError

/-- One iteration of the id-collection loop in `initag`: the body runs
`int(re.search(r'\((\d+)\)', text).group(1))` under
`try ... except (ValueError, AttributeError): pass`, so a label with no
token contributes nothing instead of raising. -/
def initagScan1 (s : String) : Option Nat :=
  match scanTok s.data with
  | some ds => some (digitsVal ds)
  | none => none

/-! ### Data model: cursors, spans, the per-axes registry -/

/-- One `DragCursor` as far as the module reads it back: identity
(`self.ident = id(self)`), orientation, interaction mode, color, the
line's x position, the tag text and the drag-capture state
`self._press` (the tuple `(x0, y0, event.xdata, event.ydata)`). -/
structure Cursor where
  ident : Nat
  orient : Orient
  mode : Mode
  color : String
  xpos : Int
  text : String
  press : Option (Int × Int × Int × Int)
  deriving DecidableEq, Repr

/-- One `DragSpan`: references to its two endpoint cursors (by
identity) and the `axvspan` polygon's vertex list. -/
structure Span where
  lowId : Nat
  highId : Nat
  poly : List (Int × Int)
  deriving DecidableEq, Repr

/-- The per-axes state: `ax.curlist`, `ax.spanlist`, and an identity
counter standing for Python object identity. -/
structure Registry where
  curlist : List Cursor
  spanlist : List Span
  nextIdent : Nat
  deriving DecidableEq, Repr

/-- The empty registry of a fresh axes object. -/
def emptyReg : Registry := ⟨[], [], 0⟩

/-- The polygon vertex list written by `DragSpan.updatespan`
(`axvspan` initially draws the same filled region). -/
def mkPoly (lowVal highVal : Int) : List (Int × Int) :=
  [(lowVal, 0), (lowVal, 1), (highVal, 1), (highVal, 0), (lowVal, 0)]

/-- The id-collection loop of `initag` over `ax.curlist`: each parseable
label contributes its id, unparseable labels are skipped by the
`try/except` (the cursor under construction has no tag yet and is
skipped the same way, so collecting before insertion is equivalent). -/
def collectIds : List Cursor → List Nat
  | [] => []
  | c :: cs =>
    match parseId c.text with
    | some k => k :: collectIds cs
    | none => collectIds cs

/-- Python `max` over a nonempty list of naturals. -/
def maxNat (l : List Nat) : Nat := l.foldl max 0

/-- The fresh tag string chosen by `initag`: `'(' + str(max(ids)+1) + ')'`,
or `'(1)'` when no cursor label yields an id. -/
def initagStr (cs : List Cursor) : String :=
  match collectIds cs with
  | [] => "(1)"
  | l => ⟨'(' :: (natDigits (maxNat l + 1) ++ [')'])⟩

/-- Construction of a `DragCursor`: record the mode, orientation and
color, draw the line at `pos`, and let `initag` attach the fresh tag
computed from the labels of the cursors already in `ax.curlist`. -/
def mkCursor (cs : List Cursor) (ident : Nat) (orient : Orient) (mode : Mode)
    (color : String) (pos : Int) : Cursor :=
  { ident := ident, orient := orient, mode := mode, color := color,
    xpos := pos, text := initagStr cs, press := none }

/-- `placecursor`: create a standalone vertical cursor (default cursor
properties use color `'r'`; a user-supplied `color` kwarg overrides
it) and append it to `ax.curlist`. -/
def placecursorF (reg : Registry) (pos : Int) (color : String) : Registry :=
  { reg with
    curlist := reg.curlist ++ [mkCursor reg.curlist reg.nextIdent .vertical .interact color pos],
    nextIdent := reg.nextIdent + 1 }

/-- `placespan` / `DragSpan.__init__` with an explicit position pair:
create the low endpoint cursor, then the high endpoint cursor (whose
`initag` already sees the low one in `ax.curlist`), attach the span to
both, draw the filled region, and append to `ax.spanlist`. -/
def placespanF (reg : Registry) (lowPos highPos : Int) (color : String) : Registry :=
  let c1 := mkCursor reg.curlist reg.nextIdent .vertspan .interact color lowPos
  let c2 := mkCursor (reg.curlist ++ [c1]) (reg.nextIdent + 1) .vertspan .interact color highPos
  { curlist := reg.curlist ++ [c1, c2],
    spanlist := reg.spanlist ++ [{ lowId := c1.ident, highId := c2.ident,
                                   poly := mkPoly lowPos highPos }],
    nextIdent := reg.nextIdent + 2 }

/-- `remcur` on a single cursor object: remove its artists, remove it
from `ax.curlist`, and disconnect its callbacks.  The object is
designated by identity, as `list.remove` does for objects. -/
def remcurF (reg : Registry) (ident : Nat) : Registry :=
  { reg with curlist := reg.curlist.filter (fun c => c.ident != ident) }

/-- The lookup loop of `getcur`: return the first cursor whose
`get_id()` equals `cur_id`; a cursor whose label has no id token makes
`get_id` raise before the loop can continue; a fruitless loop prints
`Cursor ID not found!` and returns `None`.  The result is the position
of the found cursor in `ax.curlist` (standing for the object
reference). -/
def getcurAux : List Cursor → Nat → Except PyErr (Option Nat)
  | [], _ => .ok none
  | c :: cs, i =>
    match parseId c.text with
    | none => .error .attributeError
    | some k =>
      if k = i then .ok (some 0)
      else (getcurAux cs i).map (fun o => o.map (· + 1))

/-- `getcur`: the cursor object found by id, or `None`. -/
def getcurF (reg : Registry) (curId : Nat) : Except PyErr (Option Cursor) :=
  (getcurAux reg.curlist curId).map (fun o => o.bind (fun j => reg.curlist[j]?))

/-- Selector argument of `setcursormode`. -/
inductive Sel
  | all
  | ids (l : List Nat)
  deriving DecidableEq, Repr

/-- `setcursormode`: collect the selected cursor objects, then set each
one's mode.  `'all'` selects `ax.curlist` wholesale; a sequence of
ids compares each id with every cursor's `get_id()` (so one
unparseable label raises before any mode is set), and an empty
sequence raises `IndexError` on `cursors[0]`. -/
def setcursormodeF (reg : Registry) (m : Mode) (sel : Sel) : Option Registry :=
  match sel with
  | .all => some { reg with curlist := reg.curlist.map (fun c => { c with mode := m }) }
  | .ids [] => none
  | .ids (i :: is) =>
    if reg.curlist.any (fun c => (parseId c.text).isNone) then none
    else
      some { reg with curlist := reg.curlist.map (fun c =>
        match parseId c.text with
        | some k => if k ∈ i :: is then { c with mode := m } else c
        | none => c) }

/-- `DragCursor.set_tag`: look up the current id token (group 0 of the
first match; raises `AttributeError` when there is none) and set the
text to the new tag string followed by that token. -/
def set_tag (c : Cursor) (tagStr : String) : Option Cursor :=
  (group0 c.text).map (fun idStr => { c with text := tagStr ++ idStr })

/-- `cs.set j (f cs[j])` when `j` is in range, used for mutation of a
found cursor object. -/
def setModify (cs : List Cursor) (j : Nat) (f : Cursor → Cursor) : List Cursor :=
  match cs[j]? with
  | some c => cs.set j (f c)
  | none => cs

/-- The object found by the `getcur` lookup loop: a cursor position on
success, nothing when the loop raised or found no match (in which case
the caller dereferences `None` and raises). -/
def foundCur (r : Except PyErr (Option Nat)) : Option Nat :=
  match r with
  | .ok (some j) => some j
  | _ => none

/-- `getcur(i).set_color(col)`: a failed lookup returns `None` and the
attribute access raises, so the whole call aborts. -/
def setcolorByIdF (reg : Registry) (curId : Nat) (col : String) : Option Registry :=
  (foundCur (getcurAux reg.curlist curId)).bind (fun j =>
    some { reg with curlist := setModify reg.curlist j (fun c => { c with color := col }) })

/-- `getcur(i).set_tag(t)`: set the tag of one cursor object found by
id (also aborts when the found cursor's own label has no id token). -/
def settagDirectF (reg : Registry) (curId : Nat) (tagStr : String) : Option Registry :=
  (foundCur (getcurAux reg.curlist curId)).bind (fun j =>
    ((reg.curlist[j]?).bind (fun c => set_tag c tagStr)).map
      (fun c2 => { reg with curlist := reg.curlist.set j c2 }))

/-! ### Persistence codec: savecurinfo / loadcurinfo -/

/-- One saved record row, with the column types of the saved table:
`id (int), tag (string), xpos (scalar), type (vertical|vertspan),
mode (interact|fixed), color (string)`. -/
structure Row where
  id : Nat
  tag : String
  xpos : Int
  type : Orient
  mode : Mode
  color : String
  deriving DecidableEq, Repr

/-- The row collected for one cursor by `savecurinfo`:
`get_xpos`, `get_color`, `get_tag`, `get_id`, `orient`, `mode`.
`get_id` raises when the label has no id token, aborting the save. -/
def rowOf (c : Cursor) : Option Row :=
  (parseId c.text).map (fun i =>
    { id := i, tag := stripTag c.text, xpos := c.xpos,
      type := c.orient, mode := c.mode, color := c.color })

/-- The collection loop of `savecurinfo` over `ax.curlist`. -/
def collectRows : List Cursor → Option (List Row)
  | [] => some []
  | c :: cs =>
    match rowOf c with
    | none => none
    | some r => (collectRows cs).map (fun rs => r :: rs)

/-- Insertion into a list sorted by ascending id. -/
def insRow (r : Row) : List Row → List Row
  | [] => [r]
  | s :: ss => if r.id ≤ s.id then r :: s :: ss else s :: insRow r ss

/-- The final `sort(columns='id')` of `savecurinfo` (ascending by id;
all saves proved below have pairwise distinct ids, for which every
comparison sort agrees with this insertion sort). -/
def sortById (rs : List Row) : List Row := rs.foldr insRow []

/-- `savecurinfo`: one row per cursor of `ax.curlist`, sorted by id.
On an axes with no cursors the empty DataFrame has no columns and the
column selection `cur_prop_df[col_order]` raises, so the save aborts
(`none`). -/
def savecurinfoF (reg : Registry) : Option (List Row) :=
  if reg.curlist = [] then none
  else (collectRows reg.curlist).map sortById

/-- The `initcur` helper of `loadcurinfo`: `set_mode(row['mode'])`,
`set_color(row['color'])`, `set_tag(row['tag'])`.  (An empty tag is
saved as an empty CSV cell and read back as `NaN`; `set_tag` then
takes its `TypeError` branch and keeps just the id token, which is the
same text the empty string produces, so the tag column stays a
string here.) -/
def initcurF (c : Cursor) (r : Row) : Option Cursor :=
  set_tag { c with mode := r.mode, color := r.color } r.tag

/-- The row loop of `loadcurinfo` with its one-row buffer `last_row`:
a `vertical` row recreates one standalone cursor via `placecursor` and
`initcur`; a `vertspan` row is buffered until its partner arrives, at
which point `placespan` uses the buffered row's position as the low
endpoint and the current row's as the high endpoint, the span color is
set from the current row, and `initcur` is applied to each endpoint
from its own row.  The cursors are created first and mutated before
anything else reads them, so the mutations are composed before
insertion here. -/
def loadAux : List Row → Registry → Option Row → Option Registry
  | [], reg, _ => some reg
  | r :: rs, reg, buf =>
    match r.type with
    | .vertical =>
      let c := mkCursor reg.curlist reg.nextIdent .vertical .interact "r" r.xpos
      match initcurF c r with
      | none => none
      | some c2 =>
        loadAux rs { reg with curlist := reg.curlist ++ [c2],
                              nextIdent := reg.nextIdent + 1 } buf
    | .vertspan =>
      match buf with
      | none => loadAux rs reg (some r)
      | some r0 =>
        let c1 := mkCursor reg.curlist reg.nextIdent .vertspan .interact "r" r0.xpos
        let c2 := mkCursor (reg.curlist ++ [c1]) (reg.nextIdent + 1) .vertspan .interact
          "r" r.xpos
        -- span_obj.set_color(row['color']) recolors both endpoints, then each
        -- endpoint's initcur overrides with its own row's color
        match initcurF { c1 with color := r.color } r0,
              initcurF { c2 with color := r.color } r with
        | some c1', some c2' =>
          loadAux rs { curlist := reg.curlist ++ [c1', c2'],
                       spanlist := reg.spanlist ++
                         [{ lowId := c1.ident, highId := c2.ident,
                            poly := mkPoly r0.xpos r.xpos }],
                       nextIdent := reg.nextIdent + 2 } none
        | _, _ => none

/-- `loadcurinfo` into a fresh axes: replay the rows in file order
starting from an empty registry.  The loop ends after the last row;
a still-buffered unpaired `vertspan` row is simply dropped. -/
def loadcurinfoF (rows : List Row) : Option Registry :=
  loadAux rows emptyReg none

/-! ### Span update and deletion -/

/-- `DragSpan.updatespan`: read both endpoint cursors' current x
values and rewrite the polygon vertex list.  The endpoints are reached
through the stored object references (`self.span_low`,
`self.span_high`). -/
def updatespanF (reg : Registry) (sp : Span) : Option Span :=
  match reg.curlist.find? (fun c => c.ident == sp.lowId),
        reg.curlist.find? (fun c => c.ident == sp.highId) with
  | some cl, some ch => some { sp with poly := mkPoly cl.xpos ch.xpos }
  | _, _ => none

/-- `DragSpan.delspan`: `remcur` both endpoints, remove the fill, and
remove the span itself from `ax.spanlist`. -/
def delspanF (reg : Registry) (si : Nat) : Option Registry :=
  match reg.spanlist[si]? with
  | none => none
  | some sp =>
    let r1 := remcurF reg sp.lowId
    let r2 := remcurF r1 sp.highId
    some { r2 with spanlist := r2.spanlist.eraseIdx si }

/-! ### Pointer events and the drag state machine -/

/-- A pointer event as the handlers read it: button (1 primary,
2 middle, 3 secondary), data coordinates, whether `event.inaxes` is
this cursor's axes, and whether `cline.contains(event)` picks the
cursor's line.  A non-`none` navigation-tool state
(`ax._navigate_mode`) is passed separately. -/
structure MEvent where
  button : Nat
  xdata : Int
  ydata : Int
  inaxes : Bool
  hits : Bool
  deriving DecidableEq, Repr

/-- `DragCursor._on_press`.  Returns the updated cursor and whether
`remcur(self)` ran (secondary button on a cursor that is not a span
endpoint).  Guards, in source order: wrong axes, FIXED mode, active
navigation tool, pick miss.  Note the drag capture `self._press` is
written before the secondary-button branch; `cline._xy[0]` is
`(xpos, 0)` for an axvline. -/
def on_press (nav : Bool) (c : Cursor) (e : MEvent) : Cursor × Bool :=
  if ¬ e.inaxes then (c, false)
  else if c.mode = .fixed then (c, false)
  else if nav then (c, false)
  else if ¬ e.hits then (c, false)
  else
    let c1 := { c with press := some (c.xpos, 0, e.xdata, e.ydata) }
    if e.button = 3 ∧ c.orient ≠ .vertspan then (c1, true) else (c1, false)

/-- `DragCursor._on_motion`: ignored unless a press was captured and
the pointer is inside the axes; otherwise the cursor line and tag move
to `event.xdata`.  (For a span endpoint the handler additionally calls
`self.spanobj.updatespan()`; that registry-level step is
`on_motionReg`.) -/
def on_motion (c : Cursor) (e : MEvent) : Cursor :=
  if c.press = none then c
  else if ¬ e.inaxes then c
  else { c with xpos := e.xdata }

/-- `DragCursor._on_release`: unconditionally clear the drag capture
and redraw; the event payload is not consulted. -/
def on_release (c : Cursor) (_e : MEvent) : Cursor :=
  { c with press := none }

/-- A motion event delivered to the handler of the cursor at position
`j` of `ax.curlist` (every cursor is subscribed; cursors with no
captured press ignore the event, so delivery to the dragged cursor is
the interesting case).  After moving the cursor, a span endpoint asks
its owning span to recompute the fill from the updated positions. -/
def on_motionReg (reg : Registry) (j : Nat) (e : MEvent) : Option Registry :=
  match reg.curlist[j]? with
  | none => none
  | some c =>
    if c.press = none then some reg
    else if ¬ e.inaxes then some reg
    else
      let reg1 := { reg with curlist := reg.curlist.set j { c with xpos := e.xdata } }
      if c.orient = .vertspan then
        match reg1.spanlist.findIdx? (fun sp => sp.lowId == c.ident || sp.highId == c.ident) with
        | none => none
        | some si =>
          match reg1.spanlist[si]? with
          | none => none
          | some sp =>
            (updatespanF reg1 sp).map
              (fun sp2 => { reg1 with spanlist := reg1.spanlist.set si sp2 })
      else some reg1

/-- One pointer event for a single cursor's three handlers. -/
inductive Ev
  | press (nav : Bool) (e : MEvent)
  | motion (e : MEvent)
  | release (e : MEvent)
  deriving DecidableEq, Repr

/-- Apply one event to one cursor (the deletion flag of a press is
registry-level and does not change the cursor record itself). -/
def applyEv (c : Cursor) : Ev → Cursor
  | .press nav e => (on_press nav c e).1
  | .motion e => on_motion c e
  | .release e => on_release c e

/-- A sequence of pointer events delivered in order. -/
def applyEvs (c : Cursor) (evs : List Ev) : Cursor := evs.foldl applyEv c

/-! ### Surface-level placement arming: curonclick / spanonclick -/

/-- The axes argument of `curonclick` / `spanonclick`: the default
string `'current'` or an explicit axes object. -/
inductive AxArg
  | current
  | explicit (axId : Nat)
  deriving DecidableEq, Repr

/-- The figure state these functions touch: the stored press-callback
connection id, if any. -/
structure FigSt where
  cidpress : Option Nat
  deriving DecidableEq, Repr

/-- `curonclick`: the local name `fig` is bound only inside the
`if ax == 'current'` branch; with an explicit axes argument the next
statement `hasattr(fig, 'cidpress')` reads an unbound local and raises
before anything is connected.  On the default path any previous
subscription is disconnected and the new callback is connected,
its id stored on the figure. -/
def curonclickF (ax : AxArg) (fig : FigSt) (newCid : Nat) : Except PyErr FigSt :=
  match ax with
  | .current => .ok { cidpress := some newCid }
  | .explicit _ => .error .unboundLocal

/-- `spanonclick`: identical arming logic with a span-placing
callback. -/
def spanonclickF (ax : AxArg) (fig : FigSt) (newCid : Nat) : Except PyErr FigSt :=
  match ax with
  | .current => .ok { cidpress := some newCid }
  | .explicit _ => .error .unboundLocal

/-! ### Public construction and mutation operations on one axes -/

/-- The public operations that create markers and spans and set their
modes, colors and tags. -/
inductive Op
  | placecur (pos : Int) (color : String)
  | placespan (lowPos highPos : Int) (color : String)
  | setmode (m : Mode) (sel : Sel)
  | setcolor (curId : Nat) (color : String)
  | settag (curId : Nat) (tagStr : String)
  deriving DecidableEq, Repr

/-- Apply one operation; `none` means the Python call raised. -/
def applyOp (reg : Registry) : Op → Option Registry
  | .placecur p col => some (placecursorF reg p col)
  | .placespan lo hi col => some (placespanF reg lo hi col)
  | .setmode m sel => setcursormodeF reg m sel
  | .setcolor i col => setcolorByIdF reg i col
  | .settag i t => settagDirectF reg i t

/-- Run a sequence of operations on a fresh axes. -/
def runAux (reg : Registry) : List Op → Option Registry
  | [] => some reg
  | o :: os =>
    match applyOp reg o with
    | some reg2 => runAux reg2 os
    | none => none

/-- Run a sequence of operations starting from the empty registry. -/
def runOps (ops : List Op) : Option Registry := runAux emptyReg ops

/-- An operation is clean when any tag string it writes is free of id
tokens. -/
def cleanOp : Op → Prop
  | .settag _ t => cleanB t = true
  | _ => True

/-! ### Normal form of reachable registries

A registry reachable by creating cursors and spans and setting modes,
colors and tags is, up to the data stored in each cursor, a sequence of
entries (standalone cursor or span pair): cursors appear in creation
order, the k-th cursor (0-based) has identity k and display id k+1,
and spans pair adjacent cursors.  `assembleR` rebuilds the registry
from such a sequence; the invariant is preservation of this shape. -/

/-- The per-cursor data that operations can vary: mode, color,
position and the tag name before the id token. -/
structure CData where
  mode : Mode
  color : String
  xpos : Int
  tagPre : String
  deriving DecidableEq, Repr

/-- One creation step: a standalone cursor or a span pair. -/
inductive Entry
  | one : CData → Entry
  | two : CData → CData → Entry
  deriving DecidableEq, Repr

/-- Number of cursors an entry contributes. -/
def ecount : Entry → Nat
  | .one _ => 1
  | .two _ _ => 2

/-- Number of cursors a sequence of entries contributes. -/
def ccount : List Entry → Nat
  | [] => 0
  | e :: es => ecount e + ccount es

/-- The cursor built from data `d` with orientation `o`, identity `a`
and display id `k`. -/
def cOf (d : CData) (o : Orient) (a k : Nat) : Cursor :=
  { ident := a, orient := o, mode := d.mode, color := d.color, xpos := d.xpos,
    text := composeTag d.tagPre k, press := none }

/-- The cursor list of the registry assembled from `es`, starting at
identity `n` (so display ids start at `n+1`). -/
def buildCurs : List Entry → Nat → List Cursor
  | [], _ => []
  | .one d :: es, n => cOf d .vertical n (n + 1) :: buildCurs es (n + 1)
  | .two d e :: es, n =>
    cOf d .vertspan n (n + 1) :: cOf e .vertspan (n + 1) (n + 2) :: buildCurs es (n + 2)

/-- The span list of the registry assembled from `es`. -/
def buildSpans : List Entry → Nat → List Span
  | [], _ => []
  | .one _ :: es, n => buildSpans es (n + 1)
  | .two d e :: es, n =>
    { lowId := n, highId := n + 1, poly := mkPoly d.xpos e.xpos } :: buildSpans es (n + 2)

/-- The registry assembled from a sequence of creation entries. -/
def assembleR (es : List Entry) : Registry :=
  ⟨buildCurs es 0, buildSpans es 0, ccount es⟩

/-- An entry is clean when its tag names contain no id token. -/
def CleanE : Entry → Prop
  | .one d => cleanB d.tagPre = true
  | .two d e => cleanB d.tagPre = true ∧ cleanB e.tagPre = true

/-- All entries clean. -/
def CleanEs (es : List Entry) : Prop := ∀ e ∈ es, CleanE e

/-- The invariant: the registry is assembled from clean entries. -/
def InvR (reg : Registry) : Prop := ∃ es, CleanEs es ∧ reg = assembleR es

/-- The data (and orientation) of the `j`-th cursor of a sequence of
entries. -/
def dataAt : List Entry → Nat → Option (CData × Orient)
  | [], _ => none
  | .one d :: _, 0 => some (d, .vertical)
  | .one _ :: es, j + 1 => dataAt es j
  | .two d _ :: _, 0 => some (d, .vertspan)
  | .two _ e :: _, 1 => some (e, .vertspan)
  | .two _ _ :: es, j + 2 => dataAt es j

/-- Replacement of the `j`-th cursor's data. -/
def setAt : List Entry → Nat → CData → List Entry
  | [], _, _ => []
  | .one _ :: es, 0, d2 => .one d2 :: es
  | .one d :: es, j + 1, d2 => .one d :: setAt es j d2
  | .two _ e :: es, 0, d2 => .two d2 e :: es
  | .two d _ :: es, 1, d2 => .two d d2 :: es
  | .two d e :: es, j + 2, d2 => .two d e :: setAt es j d2

/-! ### Mode setting over assembled registries -/

/-- Entry image of setting the mode of every cursor
(`setcursormode(mode)` with selector `'all'`). -/
def mapModeAll (m : Mode) : List Entry → List Entry :=
  List.map (fun e =>
    match e with
    | .one d => .one { d with mode := m }
    | .two d e2 => .two { d with mode := m } { e2 with mode := m })

/-- Entry image of setting the mode of the cursors whose display id is
in the selection (`setcursormode(mode, ids)`). -/
def mapModeIds (l : List Nat) (m : Mode) : List Entry → Nat → List Entry
  | [], _ => []
  | .one d :: es, n =>
    .one (if n + 1 ∈ l then { d with mode := m } else d) :: mapModeIds l m es (n + 1)
  | .two d e :: es, n =>
    .two (if n + 1 ∈ l then { d with mode := m } else d)
      (if n + 2 ∈ l then { e with mode := m } else e) :: mapModeIds l m es (n + 2)

/-- The selection function of `setcursormode` on one cursor (compare
each cursor's parsed id with the selection). -/
def selModeF (l : List Nat) (m : Mode) (c : Cursor) : Cursor :=
  match parseId c.text with
  | some k => if k ∈ l then { c with mode := m } else c
  | none => c

/-! ### Saving an assembled registry -/

/-- The row that `savecurinfo` writes for the cursor with data `d`,
orientation `o` and display id `k`. -/
def rowOne (d : CData) (o : Orient) (k : Nat) : Row :=
  { id := k, tag := d.tagPre, xpos := d.xpos, type := o, mode := d.mode, color := d.color }

/-- The rows of an assembled registry in cursor order. -/
def rowsOf : List Entry → Nat → List Row
  | [], _ => []
  | .one d :: es, n => rowOne d .vertical (n + 1) :: rowsOf es (n + 1)
  | .two d e :: es, n =>
    rowOne d .vertspan (n + 1) :: rowOne e .vertspan (n + 2) :: rowsOf es (n + 2)

/-! ### Layout of a registry, up to display-id renumbering

Two registries have the same layout when their markers agree as a
multiset on orientation, mode, color, position and stripped tag name,
and their spans agree as a multiset on the data of their low and high
endpoint markers (resolved through the span's stored identities). -/

/-- The observable data of one marker: orientation, interaction mode,
color, position, and the label text with id tokens stripped. -/
def mdOf (c : Cursor) : Orient × Mode × String × Int × String :=
  (c.orient, c.mode, c.color, c.xpos, stripTag c.text)

/-- Resolve a stored identity to its cursor, as `delspan` and
`updatespan` do when they scan `ax.curlist` for `span_ident`. -/
def curById (cs : List Cursor) (i : Nat) : Option Cursor :=
  cs.find? (fun c => c.ident == i)

/-- The observable data of a span: the data of its two endpoints. -/
def spanMD (reg : Registry) (sp : Span) :
    Option ((Orient × Mode × String × Int × String)
      × (Orient × Mode × String × Int × String)) :=
  match curById reg.curlist sp.lowId, curById reg.curlist sp.highId with
  | some cl, some ch => some (mdOf cl, mdOf ch)
  | _, _ => none

/-- Same markers and same spans, up to order and display ids. -/
def sameLayout (r1 r2 : Registry) : Prop :=
  (r1.curlist.map mdOf).Perm (r2.curlist.map mdOf)
    ∧ (r1.spanlist.map (spanMD r1)).Perm (r2.spanlist.map (spanMD r2))

instance optMDDec : DecidableEq (Option ((Orient × Mode × String × Int × String)
    × (Orient × Mode × String × Int × String)))
  | none, none => isTrue rfl
  | none, some _ => isFalse (fun h => Option.noConfusion h)
  | some _, none => isFalse (fun h => Option.noConfusion h)
  | some x, some y =>
    if h : x = y then isTrue (by rw [h]) else isFalse (fun hc => h (Option.some.inj hc))

instance sameLayoutDec (r1 r2 : Registry) : Decidable (sameLayout r1 r2) :=
  @instDecidableAnd _ _ (List.decidablePerm _ _) (List.decidablePerm _ _)

instance cleanOpDec : (o : Op) → Decidable (cleanOp o)
  | .placecur _ _ => isTrue trivial
  | .placespan _ _ _ => isTrue trivial
  | .setmode _ _ => isTrue trivial
  | .setcolor _ _ => isTrue trivial
  | .settag _ t => inferInstanceAs (Decidable (cleanB t = true))

/-- Two spans with tag names containing an id token: `settag` on the
last cursor embeds `(0)` in its label, `savecurinfo` then sorts that
cursor first, and `loadcurinfo` re-pairs the shuffled rows. -/
def opsC1 : List Op :=
  [.placespan 10 20 "r", .placespan 30 40 "r", .settag 4 "(0)a"]

/-- The registry built by `opsC1`. -/
def regC1 : Registry :=
  ⟨[⟨0, .vertspan, .interact, "r", 10, "(1)", none⟩,
    ⟨1, .vertspan, .interact, "r", 20, "(2)", none⟩,
    ⟨2, .vertspan, .interact, "r", 30, "(3)", none⟩,
    ⟨3, .vertspan, .interact, "r", 40, "(0)a(4)", none⟩],
   [⟨0, 1, mkPoly 10 20⟩, ⟨2, 3, mkPoly 30 40⟩], 4⟩

/-- What loading the saved record of `regC1` produces: the spans now
pair position 40 with 10 and 20 with 30. -/
def regC1load : Registry :=
  ⟨[⟨0, .vertspan, .interact, "r", 40, "a(1)", none⟩,
    ⟨1, .vertspan, .interact, "r", 10, "(2)", none⟩,
    ⟨2, .vertspan, .interact, "r", 20, "(3)", none⟩,
    ⟨3, .vertspan, .interact, "r", 30, "(4)", none⟩],
   [⟨0, 1, mkPoly 40 10⟩, ⟨2, 3, mkPoly 20 30⟩], 4⟩

/-- A span, a standalone cursor and a clean tag assignment. -/
def opsW1 : List Op := [.placespan 10 20 "r", .placecur 5 "b", .settag 1 "alpha"]

/-- The registry built by `opsW1`. -/
def regW1 : Registry :=
  ⟨[⟨0, .vertspan, .interact, "r", 10, "alpha(1)", none⟩,
    ⟨1, .vertspan, .interact, "r", 20, "(2)", none⟩,
    ⟨2, .vertical, .interact, "b", 5, "(3)", none⟩],
   [⟨0, 1, mkPoly 10 20⟩], 3⟩

/-! ### C2: the load loop never aborts -/

/-- Number of `vertical` rows. -/
def countVert : List Row → Nat
  | [] => 0
  | r :: rs => (if r.type = .vertical then 1 else 0) + countVert rs

/-- Number of `vertspan` rows. -/
def countVspan : List Row → Nat
  | [] => 0
  | r :: rs => (if r.type = .vertspan then 1 else 0) + countVspan rs

/-- Occupancy of the `last_row` buffer. -/
def bufN : Option Row → Nat
  | none => 0
  | some _ => 1

/-- A registry with one span (endpoints at 10 and 20, display ids 1
and 2) and one standalone cursor. -/
def regW4 : Registry :=
  ⟨[⟨0, .vertspan, .interact, "r", 10, "(1)", none⟩,
    ⟨1, .vertspan, .interact, "r", 20, "(2)", none⟩,
    ⟨2, .vertical, .interact, "b", 5, "(3)", none⟩],
   [⟨0, 1, mkPoly 10 20⟩], 3⟩

/-! ### C5: the fill is recomputed on every motion event -/

/-- The x extent of a polygon vertex list. -/
def polyXBounds (ps : List (Int × Int)) : Option (Int × Int) :=
  match ps.map Prod.fst with
  | [] => none
  | x :: xs => some (xs.foldl min x, xs.foldl max x)

/-- The dragged endpoint at 2 (display id 1, press captured) and its
partner at 4; the motion event carries `xdata = 9`. -/
def regW5 : Registry :=
  ⟨[⟨0, .vertspan, .interact, "r", 2, "(1)", some (2, 0, 2, 0)⟩,
    ⟨1, .vertspan, .interact, "r", 4, "(2)", none⟩],
   [⟨0, 1, mkPoly 2 4⟩], 2⟩

/-! ## Theorems -/

theorem takeDigits_eq_append : ∀ l : List Char, l = (takeDigits l).1 ++ (takeDigits l).2 := by
  intro l
  induction l with
  | nil => rfl
  | cons c cs ih =>
    by_cases h : c.isDigit <;> simp [takeDigits, h] <;> exact ih

theorem takeDigits_fst_digits : ∀ l : List Char, ∀ c ∈ (takeDigits l).1, c.isDigit = true := by
  intro l
  induction l with
  | nil => intro c hc; simp [takeDigits] at hc
  | cons x xs ih =>
    intro c hc
    by_cases h : x.isDigit
    · simp [takeDigits, h] at hc
      rcases hc with hc | hc
      · exact hc ▸ h
      · exact ih c hc
    · simp [takeDigits, h] at hc

theorem takeDigits_snd_length : ∀ l : List Char, (takeDigits l).2.length ≤ l.length := by
  intro l
  induction l with
  | nil => simp [takeDigits]
  | cons c cs ih =>
    by_cases h : c.isDigit <;> simp [takeDigits, h]
    · exact Nat.le_succ_of_le ih

theorem takeDigits_digits_cons (ds : List Char) (x : Char) (r : List Char)
    (hds : ∀ c ∈ ds, c.isDigit = true) (hx : x.isDigit = false) :
    takeDigits (ds ++ x :: r) = (ds, x :: r) := by
  induction ds with
  | nil => simp [takeDigits, hx]
  | cons d ds ih =>
    have hd : d.isDigit = true := hds d (by simp)
    have := ih (fun c hc => hds c (by simp [hc]))
    simp [takeDigits, hd, this]

theorem takeDigits_extend (l m : List Char) (b : Char) (bs : List Char)
    (h : (takeDigits l).2 = b :: bs) :
    takeDigits (l ++ m) = ((takeDigits l).1, b :: (bs ++ m)) := by
  induction l with
  | nil => simp [takeDigits] at h
  | cons c cs ih =>
    by_cases hc : c.isDigit
    · simp only [takeDigits, hc, if_true] at h ⊢
      have h2 := ih h
      simp [List.cons_append, h2]
    · simp only [takeDigits, hc, if_false] at h
      injection h with h1 h2
      subst h1; subst h2
      simp [takeDigits, hc]

theorem takeDigits_snd_nil_all (l : List Char) (h : (takeDigits l).2 = []) :
    ∀ c ∈ l, c.isDigit = true := by
  intro c hc
  have hl := takeDigits_eq_append l
  rw [h, List.append_nil] at hl
  exact takeDigits_fst_digits l c (hl ▸ hc)

theorem scanTok_cons_not_paren (c : Char) (cs : List Char) (h : ¬ c = '(') :
    scanTok (c :: cs) = scanTok cs := by
  simp [scanTok, h]

theorem scanTok_cons_paren (cs : List Char) :
    scanTok ('(' :: cs) =
      (match takeDigits cs with
       | (d :: ds, ')' :: _) => some (d :: ds)
       | _ => scanTok cs) := by
  simp [scanTok]

/-- The scan succeeds at a head parenthesis followed by digits and a
closing parenthesis. -/
theorem scanTok_paren_hit (cs : List Char) (d : Char) (ds rest : List Char)
    (h : takeDigits cs = (d :: ds, ')' :: rest)) :
    scanTok ('(' :: cs) = some (d :: ds) := by
  rw [scanTok_cons_paren, h]
  rfl

/-- The scan falls through a head parenthesis not followed by a digit. -/
theorem scanTok_paren_fall_nodigit (cs bs : List Char) (h : takeDigits cs = ([], bs)) :
    scanTok ('(' :: cs) = scanTok cs := by
  rw [scanTok_cons_paren, h]

/-- The scan falls through a head parenthesis whose digit run is not
closed by a closing parenthesis. -/
theorem scanTok_paren_fall_noclose (cs as bs : List Char) (b : Char)
    (h : takeDigits cs = (as, b :: bs)) (hb : b ≠ ')') :
    scanTok ('(' :: cs) = scanTok cs := by
  rw [scanTok_cons_paren, h]
  cases as with
  | nil => rfl
  | cons a as => simp [hb]

/-- The scan falls through a head parenthesis followed by digits that
run to the end of the string. -/
theorem scanTok_paren_fall_end (cs as : List Char) (h : takeDigits cs = (as, [])) :
    scanTok ('(' :: cs) = scanTok cs := by
  rw [scanTok_cons_paren, h]
  cases as <;> rfl

/-- If a list has no token, the tail after any head also has none. -/
theorem scanTok_none_tail (c : Char) (cs : List Char) (h : scanTok (c :: cs) = none) :
    scanTok cs = none := by
  by_cases hc : c = '('
  · subst hc
    rcases hh : takeDigits cs with ⟨as, bs⟩
    match as, bs with
    | as, [] => rwa [scanTok_paren_fall_end cs as hh] at h
    | [], b :: bs => rwa [scanTok_paren_fall_nodigit cs _ hh] at h
    | a :: as, b :: bs =>
      by_cases hb : b = ')'
      · subst hb
        rw [scanTok_paren_hit cs a as bs hh] at h
        exact absurd h (by simp)
      · rwa [scanTok_paren_fall_noclose cs _ bs b hh hb] at h
  · rwa [scanTok_cons_not_paren c cs hc] at h

/-- Appending a well-formed token to a token-free string: the scan
finds exactly that token. -/
theorem scanTok_none_append_tok :
    ∀ l ds r : List Char, scanTok l = none → ds ≠ [] → (∀ c ∈ ds, c.isDigit = true) →
      scanTok (l ++ ('(' :: (ds ++ ')' :: r))) = some ds := by
  intro l
  induction l with
  | nil =>
    intro ds r _ hne hds
    match ds, hne with
    | d :: ds, _ =>
      have ht : takeDigits ((d :: ds) ++ ')' :: r) = (d :: ds, ')' :: r) :=
        takeDigits_digits_cons (d :: ds) ')' r hds (by decide)
      rw [List.nil_append]
      exact scanTok_paren_hit _ d ds r (by simpa using ht)
  | cons c cs ih =>
    intro ds r h hne hds
    have hcs : scanTok cs = none := scanTok_none_tail c cs h
    have step := ih ds r hcs hne hds
    by_cases hc : c = '('
    · subst hc
      rw [List.cons_append]
      rcases hh : takeDigits cs with ⟨as, bs⟩
      match as, bs, hh with
      | as, [], hh =>
        -- cs is entirely digits; the appended '(' stops the digit scan
        have hall : ∀ x ∈ cs, x.isDigit = true := takeDigits_snd_nil_all cs (by rw [hh])
        have ht : takeDigits (cs ++ ('(' :: (ds ++ ')' :: r)))
            = (cs, '(' :: (ds ++ ')' :: r)) :=
          takeDigits_digits_cons cs '(' (ds ++ ')' :: r) hall (by decide)
        rw [scanTok_paren_fall_noclose _ cs _ '(' ht (by decide)]
        exact step
      | as, b :: bs, hh =>
        have ht := takeDigits_extend cs ('(' :: (ds ++ ')' :: r)) b bs (by rw [hh])
        rw [hh] at ht
        simp only at ht
        by_cases hb : b = ')'
        · subst hb
          match as, hh with
          | [], hh =>
            rw [scanTok_paren_fall_nodigit _ _ (by rw [ht])]
            exact step
          | a :: as, hh =>
            rw [scanTok_paren_hit cs a as bs hh] at h
            exact absurd h (by simp)
        · rw [scanTok_paren_fall_noclose _ as _ b ht hb]
          exact step
    · rw [List.cons_append, scanTok_cons_not_paren c _ hc]
      exact step

/-- Soundness of the scan: a found token really occurs in the string. -/
theorem scanTok_some_decomp :
    ∀ l ds : List Char, scanTok l = some ds →
      ∃ pre r, l = pre ++ ('(' :: (ds ++ ')' :: r)) ∧ ds ≠ [] ∧ ∀ c ∈ ds, c.isDigit = true := by
  intro l
  induction l with
  | nil => intro ds h; simp [scanTok] at h
  | cons c cs ih =>
    intro ds h
    by_cases hc : c = '('
    · subst hc
      rcases hh : takeDigits cs with ⟨as, bs⟩
      match as, bs, hh with
      | as, [], hh =>
        rw [scanTok_paren_fall_end cs as hh] at h
        obtain ⟨pre, r, heq, hne, hds⟩ := ih ds h
        exact ⟨'(' :: pre, r, by simp [heq], hne, hds⟩
      | [], b :: bs, hh =>
        rw [scanTok_paren_fall_nodigit cs _ hh] at h
        obtain ⟨pre, r, heq, hne, hds⟩ := ih ds h
        exact ⟨'(' :: pre, r, by simp [heq], hne, hds⟩
      | a :: as, b :: bs, hh =>
        by_cases hb : b = ')'
        · subst hb
          rw [scanTok_paren_hit cs a as bs hh] at h
          have hds_eq : ds = a :: as := by injection h with h1; exact h1.symm
          subst hds_eq
          refine ⟨[], bs, ?_, by simp,
            fun c hc => takeDigits_fst_digits cs c (by rw [hh]; exact hc)⟩
          have := takeDigits_eq_append cs
          rw [hh] at this
          simp [this]
        · rw [scanTok_paren_fall_noclose cs _ bs b hh hb] at h
          obtain ⟨pre, r, heq, hne, hds⟩ := ih ds h
          exact ⟨'(' :: pre, r, by simp [heq], hne, hds⟩
    · rw [scanTok_cons_not_paren c cs hc] at h
      obtain ⟨pre, r, heq, hne, hds⟩ := ih ds h
      exact ⟨c :: pre, r, by simp [heq], hne, hds⟩

/-- Completeness of the scan: if a token occurs, the scan finds one. -/
theorem scanTok_isSome_of_decomp :
    ∀ pre ds r : List Char, ds ≠ [] → (∀ c ∈ ds, c.isDigit = true) →
      (scanTok (pre ++ ('(' :: (ds ++ ')' :: r)))).isSome = true := by
  intro pre
  induction pre with
  | nil =>
    intro ds r hne hds
    match ds, hne with
    | d :: ds, _ =>
      have ht : takeDigits ((d :: ds) ++ ')' :: r) = (d :: ds, ')' :: r) :=
        takeDigits_digits_cons (d :: ds) ')' r hds (by decide)
      rw [List.nil_append, scanTok_paren_hit _ d ds r (by simpa using ht)]
      rfl
  | cons c cs ih =>
    intro ds r hne hds
    have step := ih ds r hne hds
    by_cases hc : c = '('
    · subst hc
      rw [List.cons_append]
      rcases hh : takeDigits (cs ++ ('(' :: (ds ++ ')' :: r))) with ⟨as, bs⟩
      match as, bs, hh with
      | as, [], hh => rw [scanTok_paren_fall_end _ as hh]; exact step
      | [], b :: bs, hh => rw [scanTok_paren_fall_nodigit _ _ hh]; exact step
      | a :: as, b :: bs, hh =>
        by_cases hb : b = ')'
        · subst hb
          rw [scanTok_paren_hit _ a as bs hh]
          rfl
        · rw [scanTok_paren_fall_noclose _ _ bs b hh hb]; exact step
    · rw [List.cons_append, scanTok_cons_not_paren c _ hc]
      exact step

theorem tokSplit_hit (cs : List Char) (d : Char) (ds rest : List Char)
    (h : takeDigits cs = (d :: ds, ')' :: rest)) :
    tokSplit cs = some rest := by
  rw [tokSplit, h]
  rfl

theorem tokSplit_nodigit (cs bs : List Char) (h : takeDigits cs = ([], bs)) :
    tokSplit cs = none := by
  rw [tokSplit, h]

theorem tokSplit_noclose (cs as bs : List Char) (b : Char)
    (h : takeDigits cs = (as, b :: bs)) (hb : b ≠ ')') :
    tokSplit cs = none := by
  rw [tokSplit, h]
  cases as with
  | nil => rfl
  | cons a as => simp [hb]

theorem tokSplit_end (cs as : List Char) (h : takeDigits cs = (as, [])) :
    tokSplit cs = none := by
  rw [tokSplit, h]
  cases as <;> rfl

theorem tokSplit_some_length (cs rest : List Char) (h : tokSplit cs = some rest) :
    rest.length < cs.length := by
  rcases hh : takeDigits cs with ⟨as, bs⟩
  match as, bs with
  | [], bs =>
    rw [tokSplit_nodigit cs bs hh] at h
    exact absurd h (by simp)
  | a :: as, [] =>
    rw [tokSplit_end cs _ hh] at h
    exact absurd h (by simp)
  | a :: as, b :: bs =>
    by_cases hb : b = ')'
    · subst hb
      rw [tokSplit_hit cs a as bs hh] at h
      injection h with h1
      subst h1
      have hlen := takeDigits_snd_length cs
      rw [hh] at hlen
      simp only [List.length_cons] at hlen
      omega
    · rw [tokSplit_noclose cs _ bs b hh hb] at h
      exact absurd h (by simp)

theorem stripSubGo_irrel :
    ∀ f1 f2 l, l.length ≤ f1 → l.length ≤ f2 → stripSubGo f1 l = stripSubGo f2 l := by
  intro f1
  induction f1 with
  | zero =>
    intro f2 l h1 _
    have : l = [] := List.length_eq_zero.mp (Nat.le_zero.mp h1)
    subst this
    cases f2 <;> rfl
  | succ f ih =>
    intro f2 l h1 h2
    match l with
    | [] => cases f2 <;> rfl
    | c :: cs =>
      match f2, h2 with
      | g + 1, h2 =>
        simp only [List.length_cons] at h1 h2
        by_cases hc : c = '('
        · subst hc
          rcases ht : tokSplit cs with _ | rest
          · have hrw := ih g cs (by omega) (by omega)
            simp [stripSubGo, ht, hrw]
          · have hlt := tokSplit_some_length cs rest ht
            have hrw := ih g rest (by omega) (by omega)
            simp [stripSubGo, ht, hrw]
        · have hrw := ih g cs (by omega) (by omega)
          simp [stripSubGo, hc, hrw]

theorem stripSub_nil : stripSub [] = [] := rfl

theorem stripSub_cons_not_paren (c : Char) (cs : List Char) (h : ¬ c = '(') :
    stripSub (c :: cs) = c :: stripSub cs := by
  simp [stripSub, stripSubGo, h]

theorem stripSub_paren_hit (cs rest : List Char) (h : tokSplit cs = some rest) :
    stripSub ('(' :: cs) = stripSub rest := by
  have hlt := tokSplit_some_length cs rest h
  have hrw := stripSubGo_irrel cs.length rest.length rest (by omega) (by omega)
  simp [stripSub, stripSubGo, h, hrw]

theorem stripSub_paren_fall (cs : List Char) (h : tokSplit cs = none) :
    stripSub ('(' :: cs) = '(' :: stripSub cs := by
  simp [stripSub, stripSubGo, h]

/-- Substituting over a token-free string followed by one token keeps
the token-free part and continues after the match. -/
theorem stripSub_none_append_tok :
    ∀ l ds r : List Char, scanTok l = none → ds ≠ [] → (∀ c ∈ ds, c.isDigit = true) →
      stripSub (l ++ ('(' :: (ds ++ ')' :: r))) = l ++ stripSub r := by
  intro l
  induction l with
  | nil =>
    intro ds r _ hne hds
    match ds, hne with
    | d :: ds, _ =>
      have ht : takeDigits ((d :: ds) ++ ')' :: r) = (d :: ds, ')' :: r) :=
        takeDigits_digits_cons (d :: ds) ')' r hds (by decide)
      rw [List.nil_append,
        stripSub_paren_hit _ r (tokSplit_hit _ d ds r (by simpa using ht)), List.nil_append]
  | cons c cs ih =>
    intro ds r h hne hds
    have hcs : scanTok cs = none := scanTok_none_tail c cs h
    have step := ih ds r hcs hne hds
    by_cases hc : c = '('
    · subst hc
      rw [List.cons_append]
      rcases hh : takeDigits cs with ⟨as, bs⟩
      match as, bs, hh with
      | as, [], hh =>
        have hall : ∀ x ∈ cs, x.isDigit = true := takeDigits_snd_nil_all cs (by rw [hh])
        have ht : takeDigits (cs ++ ('(' :: (ds ++ ')' :: r)))
            = (cs, '(' :: (ds ++ ')' :: r)) :=
          takeDigits_digits_cons cs '(' (ds ++ ')' :: r) hall (by decide)
        rw [stripSub_paren_fall _ (tokSplit_noclose _ cs _ '(' ht (by decide)), step,
          List.cons_append]
      | as, b :: bs, hh =>
        have ht := takeDigits_extend cs ('(' :: (ds ++ ')' :: r)) b bs (by rw [hh])
        rw [hh] at ht
        simp only at ht
        by_cases hb : b = ')'
        · subst hb
          match as, hh with
          | [], hh =>
            rw [stripSub_paren_fall _ (tokSplit_nodigit _ _ (by rw [ht])), step,
              List.cons_append]
          | a :: as, hh =>
            rw [scanTok_paren_hit cs a as bs hh] at h
            exact absurd h (by simp)
        · rw [stripSub_paren_fall _ (tokSplit_noclose _ as _ b ht hb), step, List.cons_append]
    · rw [List.cons_append, stripSub_cons_not_paren c _ hc, step, List.cons_append]

theorem natDigitsGo_irrel :
    ∀ f1 f2 n, n < f1 → n < f2 → natDigitsGo f1 n = natDigitsGo f2 n := by
  intro f1
  induction f1 with
  | zero => intro f2 n h1; omega
  | succ f ih =>
    intro f2 n h1 h2
    match f2, h2 with
    | g + 1, h2 =>
      by_cases h : n < 10
      · simp [natDigitsGo, h]
      · have hd : n / 10 < n := Nat.div_lt_self (by omega) (by omega)
        simp only [natDigitsGo, if_neg h]
        rw [ih g (n / 10) (by omega) (by omega)]

theorem natDigits_eq (n : Nat) :
    natDigits n =
      if n < 10 then [Char.ofNat (48 + n)]
      else natDigits (n / 10) ++ [Char.ofNat (48 + n % 10)] := by
  show natDigitsGo (n + 1) n = _
  by_cases h : n < 10
  · simp [natDigitsGo, h]
  · have hd : n / 10 < n := Nat.div_lt_self (by omega) (by omega)
    simp only [natDigitsGo, if_neg h]
    rw [natDigitsGo_irrel n (n / 10 + 1) (n / 10) (by omega) (by omega)]
    rfl

theorem digit_char_isDigit (d : Nat) (h : d < 10) : (Char.ofNat (48 + d)).isDigit = true := by
  interval_cases d <;> decide

theorem digitVal_ofNat (d : Nat) (h : d < 10) : digitVal (Char.ofNat (48 + d)) = d := by
  interval_cases d <;> decide

theorem natDigits_digits (n : Nat) : ∀ c ∈ natDigits n, c.isDigit = true := by
  induction n using Nat.strong_induction_on with
  | _ n ih =>
    intro c hc
    rw [natDigits_eq] at hc
    by_cases h : n < 10
    · simp [h] at hc
      exact hc ▸ digit_char_isDigit n h
    · simp [h] at hc
      rcases hc with hc | hc
      · exact ih (n / 10) (Nat.div_lt_self (by omega) (by omega)) c hc
      · exact hc ▸ digit_char_isDigit (n % 10) (Nat.mod_lt n (by omega))

theorem natDigits_ne_nil (n : Nat) : natDigits n ≠ [] := by
  rw [natDigits_eq]
  by_cases h : n < 10 <;> simp [h]

theorem digitsVal_append_singleton (l : List Char) (c : Char) :
    digitsVal (l ++ [c]) = 10 * digitsVal l + digitVal c := by
  simp [digitsVal, List.foldl_append]

theorem digitsVal_natDigits (n : Nat) : digitsVal (natDigits n) = n := by
  induction n using Nat.strong_induction_on with
  | _ n ih =>
    rw [natDigits_eq]
    by_cases h : n < 10
    · simp [h, digitsVal, digitVal_ofNat n h]
    · rw [if_neg h, digitsVal_append_singleton,
        ih (n / 10) (Nat.div_lt_self (by omega) (by omega)),
        digitVal_ofNat (n % 10) (Nat.mod_lt n (by omega))]
      omega

theorem parseId_composeTag (p : String) (k : Nat) (hp : cleanB p = true) :
    parseId (composeTag p k) = some k := by
  have h := scanTok_none_append_tok p.data (natDigits k) [] (by simpa [cleanB] using hp)
    (natDigits_ne_nil k) (natDigits_digits k)
  simp only [parseId, composeTag]
  rw [show p.data ++ ('(' :: (natDigits k ++ [')'])) = p.data ++ ('(' :: (natDigits k ++ ')' :: [])) from rfl]
  rw [h]
  simp [digitsVal_natDigits]

theorem group0_composeTag (p : String) (k : Nat) (hp : cleanB p = true) :
    group0 (composeTag p k) = some ⟨'(' :: (natDigits k ++ [')'])⟩ := by
  have h := scanTok_none_append_tok p.data (natDigits k) [] (by simpa [cleanB] using hp)
    (natDigits_ne_nil k) (natDigits_digits k)
  simp only [group0, composeTag]
  rw [show p.data ++ ('(' :: (natDigits k ++ [')'])) = p.data ++ ('(' :: (natDigits k ++ ')' :: [])) from rfl]
  rw [h]
  rfl

theorem stripTag_composeTag (p : String) (k : Nat) (hp : cleanB p = true) :
    stripTag (composeTag p k) = p := by
  have h := stripSub_none_append_tok p.data (natDigits k) [] (by simpa [cleanB] using hp)
    (natDigits_ne_nil k) (natDigits_digits k)
  simp only [stripTag, composeTag]
  rw [show p.data ++ ('(' :: (natDigits k ++ [')'])) = p.data ++ ('(' :: (natDigits k ++ ')' :: [])) from rfl]
  rw [h, stripSub_nil, List.append_nil]

theorem setModify_some (cs : List Cursor) (j : Nat) (f : Cursor → Cursor) (c : Cursor)
    (h : cs[j]? = some c) : setModify cs j f = cs.set j (f c) := by
  unfold setModify
  rw [h]

theorem foundCur_ok_some (j : Nat) : foundCur (.ok (some j)) = some j := rfl

theorem foundCur_ok_none : foundCur (.ok none) = none := rfl

theorem cleanB_empty : cleanB "" = true := rfl

theorem CleanEs_append {es fs : List Entry} (h1 : CleanEs es) (h2 : CleanEs fs) :
    CleanEs (es ++ fs) := by
  intro e he
  rcases List.mem_append.mp he with h | h
  · exact h1 e h
  · exact h2 e h

theorem buildCurs_append (es fs : List Entry) :
    ∀ n, buildCurs (es ++ fs) n = buildCurs es n ++ buildCurs fs (n + ccount es) := by
  induction es with
  | nil => intro n; simp [buildCurs, ccount]
  | cons e es ih =>
    intro n
    cases e with
    | one d => simp [buildCurs, ccount, ecount, ih, Nat.add_assoc, Nat.add_comm 1 (ccount es)]
    | two d e2 => simp [buildCurs, ccount, ecount, ih, Nat.add_assoc, Nat.add_comm 2 (ccount es)]

theorem buildSpans_append (es fs : List Entry) :
    ∀ n, buildSpans (es ++ fs) n = buildSpans es n ++ buildSpans fs (n + ccount es) := by
  induction es with
  | nil => intro n; simp [buildSpans, ccount]
  | cons e es ih =>
    intro n
    cases e with
    | one d => simp [buildSpans, ccount, ecount, ih, Nat.add_assoc, Nat.add_comm 1 (ccount es)]
    | two d e2 => simp [buildSpans, ccount, ecount, ih, Nat.add_assoc, Nat.add_comm 2 (ccount es)]

theorem ccount_append (es fs : List Entry) : ccount (es ++ fs) = ccount es + ccount fs := by
  induction es with
  | nil => simp [ccount]
  | cons e es ih => simp [ccount, ih, Nat.add_assoc]

theorem length_buildCurs (es : List Entry) : ∀ n, (buildCurs es n).length = ccount es := by
  induction es with
  | nil => intro n; simp [buildCurs, ccount]
  | cons e es ih =>
    intro n
    cases e with
    | one d => simp [buildCurs, ccount, ecount, ih]; omega
    | two d e2 => simp [buildCurs, ccount, ecount, ih]; omega

theorem parseId_cOf (d : CData) (o : Orient) (a k : Nat) (h : cleanB d.tagPre = true) :
    parseId (cOf d o a k).text = some k := parseId_composeTag d.tagPre k h

theorem collectIds_buildCurs (es : List Entry) (h : CleanEs es) :
    ∀ n, collectIds (buildCurs es n) = List.range' (n + 1) (ccount es) := by
  induction es with
  | nil => intro n; simp [buildCurs, collectIds, ccount]
  | cons e es ih =>
    intro n
    have hes : CleanEs es := fun x hx => h x (by simp [hx])
    have he : CleanE e := h e (by simp)
    cases e with
    | one d =>
      rw [show buildCurs (Entry.one d :: es) n
          = cOf d .vertical n (n + 1) :: buildCurs es (n + 1) from rfl]
      rw [show ccount (Entry.one d :: es) = 1 + ccount es from rfl]
      rw [collectIds, parseId_cOf d _ n (n + 1) he, ih hes (n + 1)]
      rw [show (1 : Nat) + ccount es = ccount es + 1 from Nat.add_comm 1 _, List.range'_succ]
    | two d e2 =>
      rw [show buildCurs (Entry.two d e2 :: es) n = cOf d .vertspan n (n + 1)
          :: cOf e2 .vertspan (n + 1) (n + 2) :: buildCurs es (n + 2) from rfl]
      rw [show ccount (Entry.two d e2 :: es) = 2 + ccount es from rfl]
      rw [collectIds, parseId_cOf d _ n (n + 1) he.1]
      rw [collectIds, parseId_cOf e2 _ (n + 1) (n + 2) he.2, ih hes (n + 2)]
      rw [show (2 : Nat) + ccount es = (ccount es + 1) + 1 from by omega, List.range'_succ,
        List.range'_succ]

theorem maxNat_le_range' (s N : Nat) : maxNat (List.range' (s + 1) N) ≤ s + N := by
  induction N with
  | zero =>
    rw [show List.range' (s + 1) 0 = [] from rfl]
    rw [show maxNat [] = 0 from rfl]
    omega
  | succ m ih =>
    rw [List.range'_concat]
    rw [maxNat, List.foldl_append]
    simp only [List.foldl]
    rw [show List.foldl max 0 (List.range' (s + 1) m) = maxNat (List.range' (s + 1) m) from rfl]
    omega

theorem maxNat_range' (s N : Nat) : maxNat (List.range' (s + 1) (N + 1)) = s + N + 1 := by
  rw [List.range'_concat, maxNat, List.foldl_append]
  simp only [List.foldl]
  rw [show List.foldl max 0 (List.range' (s + 1) N) = maxNat (List.range' (s + 1) N) from rfl]
  have := maxNat_le_range' s N
  omega

theorem initagStr_range' (cs : List Cursor) (N : Nat)
    (h : collectIds cs = List.range' 1 N) :
    initagStr cs = composeTag "" (N + 1) := by
  rw [initagStr, h]
  cases N with
  | zero =>
    rw [show List.range' 1 0 = [] from rfl]
    rfl
  | succ m =>
    rw [List.range'_succ]
    simp only []
    rw [show (1 : Nat) :: List.range' (1 + 1) m = List.range' 1 (m + 1) from
      (List.range'_succ 1 m 1).symm]
    rw [show maxNat (List.range' 1 (m + 1)) = m + 1 from by
      have := maxNat_range' 0 m; simpa using this]
    rfl

theorem CleanEs_tail {e : Entry} {es : List Entry} (h : CleanEs (e :: es)) : CleanEs es :=
  fun x hx => h x (by simp [hx])

theorem CleanEs_head {e : Entry} {es : List Entry} (h : CleanEs (e :: es)) : CleanE e :=
  h e (by simp)

/-- `getcur` on an assembled registry: display id `i` is found exactly
when `n + 1 ≤ i ≤ n + ccount es`, at position `i - (n + 1)`. -/
theorem getcurAux_buildCurs (es : List Entry) (h : CleanEs es) :
    ∀ n i, getcurAux (buildCurs es n) i =
      .ok (if n + 1 ≤ i ∧ i ≤ n + ccount es then some (i - (n + 1)) else none) := by
  induction es with
  | nil =>
    intro n i
    rw [show buildCurs [] n = [] from rfl, show ccount [] = 0 from rfl]
    rw [getcurAux, if_neg (by omega)]
  | cons e es ih =>
    intro n i
    have hes : CleanEs es := CleanEs_tail h
    have he : CleanE e := CleanEs_head h
    cases e with
    | one d =>
      rw [show buildCurs (.one d :: es) n = cOf d .vertical n (n + 1) :: buildCurs es (n + 1)
        from rfl]
      rw [show ccount (.one d :: es) = 1 + ccount es from rfl]
      rw [getcurAux, parseId_cOf d _ n (n + 1) he]
      dsimp only
      by_cases hi : n + 1 = i
      · subst hi
        rw [if_pos rfl, if_pos (by omega)]
        simp
      · rw [if_neg hi, ih hes (n + 1) i]
        by_cases hc2 : n + 1 + 1 ≤ i ∧ i ≤ n + 1 + ccount es
        · rw [if_pos hc2, if_pos (by omega)]
          simp [Except.map] <;> omega
        · rw [if_neg hc2, if_neg (by omega)]
          simp [Except.map]
    | two d e2 =>
      rw [show buildCurs (.two d e2 :: es) n = cOf d .vertspan n (n + 1)
        :: cOf e2 .vertspan (n + 1) (n + 2) :: buildCurs es (n + 2) from rfl]
      rw [show ccount (.two d e2 :: es) = 2 + ccount es from rfl]
      rw [getcurAux, parseId_cOf d _ n (n + 1) he.1]
      dsimp only
      by_cases hi : n + 1 = i
      · subst hi
        rw [if_pos rfl, if_pos (by omega)]
        simp
      · rw [if_neg hi, getcurAux, parseId_cOf e2 _ (n + 1) (n + 2) he.2]
        dsimp only
        by_cases hi2 : n + 2 = i
        · subst hi2
          rw [if_pos rfl, if_pos (by omega)]
          simp [Except.map] <;> omega
        · rw [if_neg hi2, ih hes (n + 2) i]
          by_cases hc2 : n + 2 + 1 ≤ i ∧ i ≤ n + 2 + ccount es
          · rw [if_pos hc2, if_pos (by omega)]
            simp [Except.map] <;> omega
          · rw [if_neg hc2, if_neg (by omega)]
            simp [Except.map]

/-- Position `j` of an assembled cursor list holds the cursor built
from the `j`-th entry data. -/
theorem getElem_buildCurs (es : List Entry) :
    ∀ n j, (buildCurs es n)[j]? =
      (dataAt es j).map (fun p => cOf p.1 p.2 (n + j) (n + j + 1)) := by
  induction es with
  | nil => intro n j; simp [buildCurs, dataAt]
  | cons e es ih =>
    intro n j
    cases e with
    | one d =>
      match j with
      | 0 => simp [buildCurs, dataAt]
      | j + 1 =>
        rw [show buildCurs (.one d :: es) n = cOf d .vertical n (n + 1) :: buildCurs es (n + 1)
          from rfl]
        rw [List.getElem?_cons_succ, ih (n + 1) j, show dataAt (.one d :: es) (j + 1)
          = dataAt es j from rfl, show n + 1 + j = n + (j + 1) from by omega]
    | two d e2 =>
      match j with
      | 0 => simp [buildCurs, dataAt]
      | 1 =>
        rw [show buildCurs (.two d e2 :: es) n = cOf d .vertspan n (n + 1)
          :: cOf e2 .vertspan (n + 1) (n + 2) :: buildCurs es (n + 2) from rfl]
        rw [List.getElem?_cons_succ, List.getElem?_cons_zero,
          show dataAt (.two d e2 :: es) 1 = some (e2, .vertspan) from rfl]
        rfl
      | j + 2 =>
        rw [show buildCurs (.two d e2 :: es) n = cOf d .vertspan n (n + 1)
          :: cOf e2 .vertspan (n + 1) (n + 2) :: buildCurs es (n + 2) from rfl]
        rw [List.getElem?_cons_succ, List.getElem?_cons_succ, ih (n + 2) j,
          show dataAt (.two d e2 :: es) (j + 2) = dataAt es j from rfl,
          show n + 2 + j = n + (j + 2) from by omega]

theorem dataAt_isSome (es : List Entry) :
    ∀ j, (dataAt es j).isSome = true ↔ j < ccount es := by
  induction es with
  | nil => intro j; simp [dataAt, ccount]
  | cons e es ih =>
    intro j
    cases e with
    | one d =>
      match j with
      | 0 => simp [dataAt, ccount, ecount] <;> omega
      | j + 1 =>
        rw [show dataAt (.one d :: es) (j + 1) = dataAt es j from rfl,
          show ccount (.one d :: es) = 1 + ccount es from rfl]
        rw [ih j]
        omega
    | two d e2 =>
      match j with
      | 0 => simp [dataAt, ccount, ecount] <;> omega
      | 1 =>
        rw [show dataAt (.two d e2 :: es) 1 = some (e2, .vertspan) from rfl,
          show ccount (.two d e2 :: es) = 2 + ccount es from rfl]
        simp <;> omega
      | j + 2 =>
        rw [show dataAt (.two d e2 :: es) (j + 2) = dataAt es j from rfl,
          show ccount (.two d e2 :: es) = 2 + ccount es from rfl]
        rw [ih j]
        omega

theorem dataAt_clean (es : List Entry) (h : CleanEs es) :
    ∀ j d o, dataAt es j = some (d, o) → cleanB d.tagPre = true := by
  induction es with
  | nil => intro j d o hj; simp [dataAt] at hj
  | cons e es ih =>
    intro j d o hj
    have hes : CleanEs es := CleanEs_tail h
    have he : CleanE e := CleanEs_head h
    cases e with
    | one d1 =>
      match j, hj with
      | 0, hj =>
        rw [show dataAt (.one d1 :: es) 0 = some (d1, .vertical) from rfl] at hj
        injection hj with hj
        cases hj
        exact he
      | j + 1, hj => exact ih hes j d o hj
    | two d1 d2 =>
      match j, hj with
      | 0, hj =>
        rw [show dataAt (.two d1 d2 :: es) 0 = some (d1, .vertspan) from rfl] at hj
        injection hj with hj
        cases hj
        exact he.1
      | 1, hj =>
        rw [show dataAt (.two d1 d2 :: es) 1 = some (d2, .vertspan) from rfl] at hj
        injection hj with hj
        cases hj
        exact he.2
      | j + 2, hj => exact ih hes j d o hj

theorem buildCurs_setAt (es : List Entry) :
    ∀ n j d0 o d2, dataAt es j = some (d0, o) →
      buildCurs (setAt es j d2) n = (buildCurs es n).set j (cOf d2 o (n + j) (n + j + 1)) := by
  induction es with
  | nil => intro n j d0 o d2 hj; simp [dataAt] at hj
  | cons e es ih =>
    intro n j d0 o d2 hj
    cases e with
    | one d1 =>
      match j, hj with
      | 0, hj =>
        rw [show dataAt (.one d1 :: es) 0 = some (d1, .vertical) from rfl] at hj
        injection hj with hj
        rw [show o = Orient.vertical from (congrArg Prod.snd hj).symm]
        simp [setAt, buildCurs]
      | j + 1, hj =>
        rw [show dataAt (.one d1 :: es) (j + 1) = dataAt es j from rfl] at hj
        rw [show setAt (.one d1 :: es) (j + 1) d2 = .one d1 :: setAt es j d2 from rfl]
        rw [show buildCurs (.one d1 :: setAt es j d2) n
          = cOf d1 .vertical n (n + 1) :: buildCurs (setAt es j d2) (n + 1) from rfl]
        rw [show buildCurs (.one d1 :: es) n
          = cOf d1 .vertical n (n + 1) :: buildCurs es (n + 1) from rfl]
        rw [ih (n + 1) j d0 o d2 hj, List.set_cons_succ,
          show n + 1 + j = n + (j + 1) from by omega]
    | two d1 dh =>
      match j, hj with
      | 0, hj =>
        rw [show dataAt (.two d1 dh :: es) 0 = some (d1, .vertspan) from rfl] at hj
        injection hj with hj
        rw [show o = Orient.vertspan from (congrArg Prod.snd hj).symm]
        simp [setAt, buildCurs]
      | 1, hj =>
        rw [show dataAt (.two d1 dh :: es) 1 = some (dh, .vertspan) from rfl] at hj
        injection hj with hj
        rw [show o = Orient.vertspan from (congrArg Prod.snd hj).symm]
        simp [setAt, buildCurs]
      | j + 2, hj =>
        rw [show dataAt (.two d1 dh :: es) (j + 2) = dataAt es j from rfl] at hj
        rw [show setAt (.two d1 dh :: es) (j + 2) d2 = .two d1 dh :: setAt es j d2 from rfl]
        rw [show buildCurs (.two d1 dh :: setAt es j d2) n = cOf d1 .vertspan n (n + 1)
          :: cOf dh .vertspan (n + 1) (n + 2) :: buildCurs (setAt es j d2) (n + 2) from rfl]
        rw [show buildCurs (.two d1 dh :: es) n = cOf d1 .vertspan n (n + 1)
          :: cOf dh .vertspan (n + 1) (n + 2) :: buildCurs es (n + 2) from rfl]
        rw [ih (n + 2) j d0 o d2 hj, List.set_cons_succ, List.set_cons_succ,
          show n + 2 + j = n + (j + 2) from by omega]

theorem buildSpans_setAt (es : List Entry) :
    ∀ n j d0 o d2, dataAt es j = some (d0, o) → d2.xpos = d0.xpos →
      buildSpans (setAt es j d2) n = buildSpans es n := by
  induction es with
  | nil => intro n j d0 o d2 hj; simp [dataAt] at hj
  | cons e es ih =>
    intro n j d0 o d2 hj hx
    cases e with
    | one d1 =>
      match j, hj with
      | 0, hj => simp [setAt, buildSpans]
      | j + 1, hj =>
        rw [show dataAt (.one d1 :: es) (j + 1) = dataAt es j from rfl] at hj
        rw [show setAt (.one d1 :: es) (j + 1) d2 = .one d1 :: setAt es j d2 from rfl]
        rw [show buildSpans (.one d1 :: setAt es j d2) n = buildSpans (setAt es j d2) (n + 1)
          from rfl]
        rw [show buildSpans (.one d1 :: es) n = buildSpans es (n + 1) from rfl]
        exact ih (n + 1) j d0 o d2 hj hx
    | two d1 dh =>
      match j, hj with
      | 0, hj =>
        rw [show dataAt (.two d1 dh :: es) 0 = some (d1, .vertspan) from rfl] at hj
        injection hj with hj
        have : d0 = d1 := (congrArg Prod.fst hj).symm
        subst this
        simp [setAt, buildSpans, hx]
      | 1, hj =>
        rw [show dataAt (.two d1 dh :: es) 1 = some (dh, .vertspan) from rfl] at hj
        injection hj with hj
        have : d0 = dh := (congrArg Prod.fst hj).symm
        subst this
        simp [setAt, buildSpans, hx]
      | j + 2, hj =>
        rw [show dataAt (.two d1 dh :: es) (j + 2) = dataAt es j from rfl] at hj
        rw [show setAt (.two d1 dh :: es) (j + 2) d2 = .two d1 dh :: setAt es j d2 from rfl]
        rw [show buildSpans (.two d1 dh :: setAt es j d2) n
          = { lowId := n, highId := n + 1, poly := mkPoly d1.xpos dh.xpos }
            :: buildSpans (setAt es j d2) (n + 2) from rfl]
        rw [show buildSpans (.two d1 dh :: es) n
          = { lowId := n, highId := n + 1, poly := mkPoly d1.xpos dh.xpos }
            :: buildSpans es (n + 2) from rfl]
        rw [ih (n + 2) j d0 o d2 hj hx]

theorem ccount_setAt (es : List Entry) : ∀ j d2, ccount (setAt es j d2) = ccount es := by
  induction es with
  | nil => intro j d2; rfl
  | cons e es ih =>
    intro j d2
    cases e with
    | one d1 =>
      match j with
      | 0 => rfl
      | j + 1 =>
        rw [show setAt (.one d1 :: es) (j + 1) d2 = .one d1 :: setAt es j d2 from rfl]
        rw [show ccount (.one d1 :: setAt es j d2) = 1 + ccount (setAt es j d2) from rfl]
        rw [show ccount (.one d1 :: es) = 1 + ccount es from rfl, ih j d2]
    | two d1 dh =>
      match j with
      | 0 => rfl
      | 1 => rfl
      | j + 2 =>
        rw [show setAt (.two d1 dh :: es) (j + 2) d2 = .two d1 dh :: setAt es j d2 from rfl]
        rw [show ccount (.two d1 dh :: setAt es j d2) = 2 + ccount (setAt es j d2) from rfl]
        rw [show ccount (.two d1 dh :: es) = 2 + ccount es from rfl, ih j d2]

theorem CleanEs_setAt (es : List Entry) (h : CleanEs es) :
    ∀ j d2, cleanB d2.tagPre = true → CleanEs (setAt es j d2) := by
  induction es with
  | nil => intro j d2 _; exact h
  | cons e es ih =>
    intro j d2 hd2
    have hes : CleanEs es := CleanEs_tail h
    have he : CleanE e := CleanEs_head h
    cases e with
    | one d1 =>
      match j with
      | 0 =>
        intro x hx
        rcases List.mem_cons.mp hx with hx | hx
        · subst hx; exact hd2
        · exact hes x hx
      | j + 1 =>
        intro x hx
        rcases List.mem_cons.mp hx with hx | hx
        · subst hx; exact he
        · exact ih hes j d2 hd2 x hx
    | two d1 dh =>
      match j with
      | 0 =>
        intro x hx
        rcases List.mem_cons.mp hx with hx | hx
        · subst hx; exact ⟨hd2, he.2⟩
        · exact hes x hx
      | 1 =>
        intro x hx
        rcases List.mem_cons.mp hx with hx | hx
        · subst hx; exact ⟨he.1, hd2⟩
        · exact hes x hx
      | j + 2 =>
        intro x hx
        rcases List.mem_cons.mp hx with hx | hx
        · subst hx; exact he
        · exact ih hes j d2 hd2 x hx

theorem buildCurs_mapModeAll (m : Mode) (es : List Entry) :
    ∀ n, buildCurs (mapModeAll m es) n
      = (buildCurs es n).map (fun c => { c with mode := m }) := by
  induction es with
  | nil => intro n; rfl
  | cons e es ih =>
    intro n
    cases e with
    | one d => simp only [mapModeAll, List.map_cons, buildCurs]; rw [← mapModeAll, ih]; rfl
    | two d e2 => simp only [mapModeAll, List.map_cons, buildCurs]; rw [← mapModeAll, ih]; rfl

theorem buildSpans_mapModeAll (m : Mode) (es : List Entry) :
    ∀ n, buildSpans (mapModeAll m es) n = buildSpans es n := by
  induction es with
  | nil => intro n; rfl
  | cons e es ih =>
    intro n
    cases e with
    | one d => simp only [mapModeAll, List.map_cons, buildSpans]; rw [← mapModeAll, ih]
    | two d e2 => simp only [mapModeAll, List.map_cons, buildSpans]; rw [← mapModeAll, ih]

theorem ccount_mapModeAll (m : Mode) (es : List Entry) : ccount (mapModeAll m es) = ccount es := by
  induction es with
  | nil => rfl
  | cons e es ih =>
    cases e with
    | one d => simp only [mapModeAll, List.map_cons, ccount, ecount]; rw [← mapModeAll, ih]
    | two d e2 => simp only [mapModeAll, List.map_cons, ccount, ecount]; rw [← mapModeAll, ih]

theorem CleanEs_mapModeAll (m : Mode) (es : List Entry) (h : CleanEs es) :
    CleanEs (mapModeAll m es) := by
  intro e he
  rw [mapModeAll] at he
  obtain ⟨e0, he0, heq⟩ := List.mem_map.mp he
  have := h e0 he0
  cases e0 with
  | one d => subst heq; exact this
  | two d e2 => subst heq; exact this

theorem selModeF_cOf (l : List Nat) (m : Mode) (d : CData) (o : Orient) (a k : Nat)
    (hd : cleanB d.tagPre = true) :
    selModeF l m (cOf d o a k)
      = cOf (if k ∈ l then { d with mode := m } else d) o a k := by
  rw [selModeF, parseId_cOf d o a k hd]
  dsimp only
  by_cases hk : k ∈ l
  · rw [if_pos hk, if_pos hk]
    rfl
  · rw [if_neg hk, if_neg hk]

theorem buildCurs_mapModeIds (l : List Nat) (m : Mode) (es : List Entry) (h : CleanEs es) :
    ∀ n, buildCurs (mapModeIds l m es n) n = (buildCurs es n).map (selModeF l m) := by
  induction es with
  | nil => intro n; rfl
  | cons e es ih =>
    intro n
    have hes : CleanEs es := CleanEs_tail h
    have he : CleanE e := CleanEs_head h
    cases e with
    | one d =>
      rw [show mapModeIds l m (.one d :: es) n
        = .one (if n + 1 ∈ l then { d with mode := m } else d) :: mapModeIds l m es (n + 1)
        from rfl]
      rw [show buildCurs (.one (if n + 1 ∈ l then { d with mode := m } else d)
          :: mapModeIds l m es (n + 1)) n
        = cOf (if n + 1 ∈ l then { d with mode := m } else d) .vertical n (n + 1)
          :: buildCurs (mapModeIds l m es (n + 1)) (n + 1) from rfl]
      rw [show buildCurs (.one d :: es) n
        = cOf d .vertical n (n + 1) :: buildCurs es (n + 1) from rfl]
      rw [List.map_cons, ih hes (n + 1), selModeF_cOf l m d _ n (n + 1) he]
    | two d e2 =>
      rw [show mapModeIds l m (.two d e2 :: es) n
        = .two (if n + 1 ∈ l then { d with mode := m } else d)
            (if n + 2 ∈ l then { e2 with mode := m } else e2) :: mapModeIds l m es (n + 2)
        from rfl]
      rw [show buildCurs (.two (if n + 1 ∈ l then { d with mode := m } else d)
          (if n + 2 ∈ l then { e2 with mode := m } else e2) :: mapModeIds l m es (n + 2)) n
        = cOf (if n + 1 ∈ l then { d with mode := m } else d) .vertspan n (n + 1)
          :: cOf (if n + 2 ∈ l then { e2 with mode := m } else e2) .vertspan (n + 1) (n + 2)
          :: buildCurs (mapModeIds l m es (n + 2)) (n + 2) from rfl]
      rw [show buildCurs (.two d e2 :: es) n = cOf d .vertspan n (n + 1)
        :: cOf e2 .vertspan (n + 1) (n + 2) :: buildCurs es (n + 2) from rfl]
      rw [List.map_cons, List.map_cons, ih hes (n + 2),
        selModeF_cOf l m d _ n (n + 1) he.1, selModeF_cOf l m e2 _ (n + 1) (n + 2) he.2]

theorem mode_update_tagPre (m : Mode) (d : CData) (b : Prop) [Decidable b] :
    (if b then { d with mode := m } else d).tagPre = d.tagPre := by
  by_cases hb : b
  · rw [if_pos hb]
  · rw [if_neg hb]

theorem mode_update_xpos (m : Mode) (d : CData) (b : Prop) [Decidable b] :
    (if b then { d with mode := m } else d).xpos = d.xpos := by
  by_cases hb : b
  · rw [if_pos hb]
  · rw [if_neg hb]

theorem buildSpans_mapModeIds (l : List Nat) (m : Mode) (es : List Entry) :
    ∀ n, buildSpans (mapModeIds l m es n) n = buildSpans es n := by
  induction es with
  | nil => intro n; rfl
  | cons e es ih =>
    intro n
    cases e with
    | one d =>
      rw [show mapModeIds l m (.one d :: es) n
        = .one (if n + 1 ∈ l then { d with mode := m } else d) :: mapModeIds l m es (n + 1)
        from rfl]
      rw [show buildSpans (.one (if n + 1 ∈ l then { d with mode := m } else d)
          :: mapModeIds l m es (n + 1)) n = buildSpans (mapModeIds l m es (n + 1)) (n + 1)
        from rfl]
      rw [show buildSpans (.one d :: es) n = buildSpans es (n + 1) from rfl, ih (n + 1)]
    | two d e2 =>
      rw [show mapModeIds l m (.two d e2 :: es) n
        = .two (if n + 1 ∈ l then { d with mode := m } else d)
            (if n + 2 ∈ l then { e2 with mode := m } else e2) :: mapModeIds l m es (n + 2)
        from rfl]
      rw [show buildSpans (.two (if n + 1 ∈ l then { d with mode := m } else d)
          (if n + 2 ∈ l then { e2 with mode := m } else e2) :: mapModeIds l m es (n + 2)) n
        = { lowId := n, highId := n + 1,
            poly := mkPoly (if n + 1 ∈ l then { d with mode := m } else d).xpos
              (if n + 2 ∈ l then { e2 with mode := m } else e2).xpos }
          :: buildSpans (mapModeIds l m es (n + 2)) (n + 2) from rfl]
      rw [show buildSpans (.two d e2 :: es) n
        = { lowId := n, highId := n + 1, poly := mkPoly d.xpos e2.xpos }
          :: buildSpans es (n + 2) from rfl]
      rw [ih (n + 2), mode_update_xpos, mode_update_xpos]

theorem ccount_mapModeIds (l : List Nat) (m : Mode) (es : List Entry) :
    ∀ n, ccount (mapModeIds l m es n) = ccount es := by
  induction es with
  | nil => intro n; rfl
  | cons e es ih =>
    intro n
    cases e with
    | one d =>
      rw [show mapModeIds l m (.one d :: es) n
        = .one (if n + 1 ∈ l then { d with mode := m } else d) :: mapModeIds l m es (n + 1)
        from rfl]
      rw [show ccount (.one (if n + 1 ∈ l then { d with mode := m } else d)
          :: mapModeIds l m es (n + 1)) = 1 + ccount (mapModeIds l m es (n + 1)) from rfl]
      rw [show ccount (.one d :: es) = 1 + ccount es from rfl, ih (n + 1)]
    | two d e2 =>
      rw [show mapModeIds l m (.two d e2 :: es) n
        = .two (if n + 1 ∈ l then { d with mode := m } else d)
            (if n + 2 ∈ l then { e2 with mode := m } else e2) :: mapModeIds l m es (n + 2)
        from rfl]
      rw [show ccount (.two (if n + 1 ∈ l then { d with mode := m } else d)
          (if n + 2 ∈ l then { e2 with mode := m } else e2) :: mapModeIds l m es (n + 2))
        = 2 + ccount (mapModeIds l m es (n + 2)) from rfl]
      rw [show ccount (.two d e2 :: es) = 2 + ccount es from rfl, ih (n + 2)]

theorem CleanEs_mapModeIds (l : List Nat) (m : Mode) (es : List Entry) (h : CleanEs es) :
    ∀ n, CleanEs (mapModeIds l m es n) := by
  induction es with
  | nil => intro n e he; cases he
  | cons e es ih =>
    intro n x hx
    have hes : CleanEs es := CleanEs_tail h
    have he : CleanE e := CleanEs_head h
    cases e with
    | one d =>
      rw [show mapModeIds l m (.one d :: es) n
        = .one (if n + 1 ∈ l then { d with mode := m } else d) :: mapModeIds l m es (n + 1)
        from rfl] at hx
      rcases List.mem_cons.mp hx with hx | hx
      · subst hx
        show cleanB (if n + 1 ∈ l then { d with mode := m } else d).tagPre = true
        rw [mode_update_tagPre]
        exact he
      · exact ih hes (n + 1) x hx
    | two d e2 =>
      rw [show mapModeIds l m (.two d e2 :: es) n
        = .two (if n + 1 ∈ l then { d with mode := m } else d)
            (if n + 2 ∈ l then { e2 with mode := m } else e2) :: mapModeIds l m es (n + 2)
        from rfl] at hx
      rcases List.mem_cons.mp hx with hx | hx
      · subst hx
        refine ⟨?_, ?_⟩
        · rw [mode_update_tagPre]; exact he.1
        · rw [mode_update_tagPre]; exact he.2
      · exact ih hes (n + 2) x hx

/-! ### Invariant preservation by the public operations -/

theorem append_tok (t : String) (k : Nat) :
    t ++ (⟨'(' :: (natDigits k ++ [')'])⟩ : String) = composeTag t k :=
  String.ext (by rw [String.data_append]; rfl)

theorem set_tag_cOf (d : CData) (o : Orient) (a k : Nat) (t : String)
    (hd : cleanB d.tagPre = true) :
    set_tag (cOf d o a k) t = some (cOf { d with tagPre := t } o a k) := by
  rw [set_tag, show (cOf d o a k).text = composeTag d.tagPre k from rfl,
    group0_composeTag d.tagPre k hd]
  dsimp only [Option.map]
  rw [append_tok t k]
  rfl

theorem initagStr_buildCurs (es : List Entry) (h : CleanEs es) :
    initagStr (buildCurs es 0) = composeTag "" (ccount es + 1) :=
  initagStr_range' _ (ccount es) (by simpa using collectIds_buildCurs es h 0)

theorem pres_placecur (es : List Entry) (h : CleanEs es) (p : Int) (col : String) :
    placecursorF (assembleR es) p col
      = assembleR (es ++ [.one ⟨.interact, col, p, ""⟩]) := by
  rw [placecursorF, assembleR, assembleR]
  simp only [Registry.mk.injEq]
  refine ⟨?_, ?_, ?_⟩
  · rw [buildCurs_append]
    rw [show buildCurs [Entry.one ⟨.interact, col, p, ""⟩] (0 + ccount es)
      = [cOf ⟨.interact, col, p, ""⟩ .vertical (0 + ccount es) (0 + ccount es + 1)] from rfl]
    rw [show (0 + ccount es) = ccount es from by omega]
    rw [show mkCursor (buildCurs es 0) (ccount es) .vertical .interact col p
      = cOf ⟨.interact, col, p, ""⟩ .vertical (ccount es) (ccount es + 1) from by
        rw [mkCursor, initagStr_buildCurs es h]
        rfl]
  · rw [buildSpans_append]
    rw [show buildSpans [Entry.one ⟨.interact, col, p, ""⟩] (0 + ccount es) = [] from rfl]
    rw [List.append_nil]
  · rw [ccount_append]
    rfl

theorem collectIds_append_one (cs : List Cursor) (c : Cursor) (k : Nat)
    (hc : parseId c.text = some k) :
    collectIds (cs ++ [c]) = collectIds cs ++ [k] := by
  induction cs with
  | nil => simp [collectIds, hc]
  | cons x xs ih =>
    rw [List.cons_append, collectIds, collectIds]
    rcases hx : parseId x.text with _ | k2
    · dsimp only
      exact ih
    · dsimp only
      rw [ih, List.cons_append]

theorem pres_placespan (es : List Entry) (h : CleanEs es) (lo hi : Int) (col : String) :
    placespanF (assembleR es) lo hi col
      = assembleR (es ++ [.two ⟨.interact, col, lo, ""⟩ ⟨.interact, col, hi, ""⟩]) := by
  have hN := initagStr_buildCurs es h
  have hc1 : mkCursor (buildCurs es 0) (ccount es) .vertspan .interact col lo
      = cOf ⟨.interact, col, lo, ""⟩ .vertspan (ccount es) (ccount es + 1) := by
    rw [mkCursor, hN]
    rfl
  have hcoll2 : collectIds (buildCurs es 0
      ++ [cOf ⟨.interact, col, lo, ""⟩ .vertspan (ccount es) (ccount es + 1)])
      = List.range' 1 (ccount es + 1) := by
    rw [collectIds_append_one _ _ (ccount es + 1)
      (parseId_cOf ⟨.interact, col, lo, ""⟩ .vertspan (ccount es) (ccount es + 1) rfl)]
    rw [show collectIds (buildCurs es 0) = List.range' 1 (ccount es) from by
      simpa using collectIds_buildCurs es h 0]
    rw [List.range'_concat]
    rw [show (1 : Nat) + 1 * ccount es = ccount es + 1 from by omega]
  have hc2 : mkCursor (buildCurs es 0
      ++ [cOf ⟨.interact, col, lo, ""⟩ .vertspan (ccount es) (ccount es + 1)])
      (ccount es + 1) .vertspan .interact col hi
      = cOf ⟨.interact, col, hi, ""⟩ .vertspan (ccount es + 1) (ccount es + 2) := by
    rw [mkCursor, initagStr_range' _ (ccount es + 1) hcoll2]
    rfl
  rw [placespanF, assembleR, assembleR]
  simp only [Registry.mk.injEq]
  refine ⟨?_, ?_, ?_⟩
  · rw [hc1, hc2, buildCurs_append]
    rw [show buildCurs [Entry.two ⟨.interact, col, lo, ""⟩ ⟨.interact, col, hi, ""⟩]
        (0 + ccount es)
      = [cOf ⟨.interact, col, lo, ""⟩ .vertspan (0 + ccount es) (0 + ccount es + 1),
         cOf ⟨.interact, col, hi, ""⟩ .vertspan (0 + ccount es + 1) (0 + ccount es + 2)]
      from rfl]
    rw [show (0 + ccount es) = ccount es from by omega]
  · rw [hc1, hc2, buildSpans_append]
    rw [show buildSpans [Entry.two ⟨.interact, col, lo, ""⟩ ⟨.interact, col, hi, ""⟩]
        (0 + ccount es)
      = [{ lowId := 0 + ccount es, highId := 0 + ccount es + 1, poly := mkPoly lo hi }]
      from rfl]
    rw [show (0 + ccount es) = ccount es from by omega]
    rfl
  · rw [ccount_append]
    rw [show ccount [Entry.two ⟨.interact, col, lo, ""⟩ ⟨.interact, col, hi, ""⟩] = 2 from rfl]

theorem parse_isSome_buildCurs (es : List Entry) (h : CleanEs es) :
    ∀ n c, c ∈ buildCurs es n → (parseId c.text).isSome = true := by
  induction es with
  | nil => intro n c hc; cases hc
  | cons e es ih =>
    intro n c hc
    have hes : CleanEs es := CleanEs_tail h
    have he : CleanE e := CleanEs_head h
    cases e with
    | one d =>
      rcases List.mem_cons.mp hc with hc | hc
      · subst hc; rw [parseId_cOf d _ n (n + 1) he]; rfl
      · exact ih hes (n + 1) c hc
    | two d e2 =>
      rcases List.mem_cons.mp hc with hc | hc
      · subst hc; rw [parseId_cOf d _ n (n + 1) he.1]; rfl
      · rcases List.mem_cons.mp hc with hc | hc
        · subst hc; rw [parseId_cOf e2 _ (n + 1) (n + 2) he.2]; rfl
        · exact ih hes (n + 2) c hc

theorem any_parse_none_buildCurs (es : List Entry) (h : CleanEs es) :
    ((buildCurs es 0).any (fun c => (parseId c.text).isNone)) = false := by
  rw [List.any_eq_false]
  intro c hc
  have h2 := parse_isSome_buildCurs es h 0 c hc
  rcases hp : parseId c.text with _ | k
  · rw [hp] at h2; simp at h2
  · simp [Option.isNone, hp]

/-- Invariant preservation for `setcursormode`. -/
theorem pres_setmode (es : List Entry) (h : CleanEs es) (m : Mode) (sel : Sel)
    (reg2 : Registry) (hr : setcursormodeF (assembleR es) m sel = some reg2) :
    ∃ es2, CleanEs es2 ∧ reg2 = assembleR es2 := by
  cases sel with
  | all =>
    refine ⟨mapModeAll m es, CleanEs_mapModeAll m es h, ?_⟩
    rw [setcursormodeF] at hr
    injection hr with hr
    subst hr
    rw [assembleR, assembleR]
    simp only [Registry.mk.injEq]
    exact ⟨(buildCurs_mapModeAll m es 0).symm, (buildSpans_mapModeAll m es 0).symm,
      (ccount_mapModeAll m es).symm⟩
  | ids l =>
    match l with
    | [] => rw [setcursormodeF] at hr; cases hr
    | i :: is =>
      refine ⟨mapModeIds (i :: is) m es 0, CleanEs_mapModeIds (i :: is) m es h 0, ?_⟩
      rw [setcursormodeF, show (assembleR es).curlist = buildCurs es 0 from rfl,
        any_parse_none_buildCurs es h] at hr
      rw [if_neg (by simp)] at hr
      injection hr with hr
      subst hr
      rw [assembleR, assembleR]
      simp only [Registry.mk.injEq]
      refine ⟨?_, (buildSpans_mapModeIds (i :: is) m es 0).symm,
        (ccount_mapModeIds (i :: is) m es 0).symm⟩
      rw [buildCurs_mapModeIds (i :: is) m es h 0]
      rfl

/-- Invariant preservation for color setting through `getcur`. -/
theorem pres_setcolor (es : List Entry) (h : CleanEs es) (i : Nat) (col : String)
    (reg2 : Registry) (hr : setcolorByIdF (assembleR es) i col = some reg2) :
    ∃ es2, CleanEs es2 ∧ reg2 = assembleR es2 := by
  rw [setcolorByIdF, show (assembleR es).curlist = buildCurs es 0 from rfl,
    getcurAux_buildCurs es h 0 i] at hr
  by_cases hcond : 0 + 1 ≤ i ∧ i ≤ 0 + ccount es
  · rw [if_pos hcond, foundCur_ok_some, Option.some_bind] at hr
    have hlt : i - (0 + 1) < ccount es := by omega
    obtain ⟨⟨d0, o⟩, hd0⟩ := Option.isSome_iff_exists.mp ((dataAt_isSome es (i - (0 + 1))).mpr hlt)
    have hget : (buildCurs es 0)[i - (0 + 1)]?
        = some (cOf d0 o (0 + (i - (0 + 1))) (0 + (i - (0 + 1)) + 1)) := by
      rw [getElem_buildCurs es 0 (i - (0 + 1)), hd0]
      rfl
    rw [setModify_some _ _ _ _ hget] at hr
    injection hr with hr
    subst hr
    refine ⟨setAt es (i - (0 + 1)) { d0 with color := col },
      CleanEs_setAt es h _ _ (by
        rw [show ({ d0 with color := col } : CData).tagPre = d0.tagPre from rfl]
        exact dataAt_clean es h _ d0 o hd0), ?_⟩
    rw [assembleR, assembleR]
    simp only [Registry.mk.injEq]
    refine ⟨?_, ?_, ?_⟩
    · rw [buildCurs_setAt es 0 (i - (0 + 1)) d0 o { d0 with color := col } hd0]
      rfl
    · rw [buildSpans_setAt es 0 (i - (0 + 1)) d0 o { d0 with color := col } hd0 rfl]
    · rw [ccount_setAt]
  · rw [if_neg hcond, foundCur_ok_none] at hr
    cases hr

/-- Invariant preservation for tag setting through `getcur`, for a
clean new tag string. -/
theorem pres_settag (es : List Entry) (h : CleanEs es) (i : Nat) (t : String)
    (ht : cleanB t = true) (reg2 : Registry)
    (hr : settagDirectF (assembleR es) i t = some reg2) :
    ∃ es2, CleanEs es2 ∧ reg2 = assembleR es2 := by
  rw [settagDirectF, show (assembleR es).curlist = buildCurs es 0 from rfl,
    getcurAux_buildCurs es h 0 i] at hr
  by_cases hcond : 0 + 1 ≤ i ∧ i ≤ 0 + ccount es
  · rw [if_pos hcond, foundCur_ok_some, Option.some_bind] at hr
    have hlt : i - (0 + 1) < ccount es := by omega
    obtain ⟨⟨d0, o⟩, hd0⟩ := Option.isSome_iff_exists.mp ((dataAt_isSome es (i - (0 + 1))).mpr hlt)
    have hget : (buildCurs es 0)[i - (0 + 1)]?
        = some (cOf d0 o (0 + (i - (0 + 1))) (0 + (i - (0 + 1)) + 1)) := by
      rw [getElem_buildCurs es 0 (i - (0 + 1)), hd0]
      rfl
    rw [hget, Option.some_bind,
      set_tag_cOf d0 o (0 + (i - (0 + 1))) (0 + (i - (0 + 1)) + 1) t
        (dataAt_clean es h _ d0 o hd0),
      Option.map_some'] at hr
    injection hr with hr
    subst hr
    refine ⟨setAt es (i - (0 + 1)) { d0 with tagPre := t },
      CleanEs_setAt es h _ _ ht, ?_⟩
    rw [assembleR, assembleR]
    simp only [Registry.mk.injEq]
    refine ⟨?_, ?_, ?_⟩
    · rw [buildCurs_setAt es 0 (i - (0 + 1)) d0 o { d0 with tagPre := t } hd0]
    · rw [buildSpans_setAt es 0 (i - (0 + 1)) d0 o { d0 with tagPre := t } hd0 rfl]
    · rw [ccount_setAt]
  · rw [if_neg hcond, foundCur_ok_none] at hr
    cases hr

/-- One public operation preserves the invariant. -/
theorem applyOp_inv (reg : Registry) (o : Op) (reg2 : Registry)
    (hinv : InvR reg) (hclean : cleanOp o) (hr : applyOp reg o = some reg2) :
    InvR reg2 := by
  obtain ⟨es, hes, rfl⟩ := hinv
  cases o with
  | placecur p col =>
    rw [applyOp] at hr
    injection hr with hr
    subst hr
    refine ⟨es ++ [.one ⟨.interact, col, p, ""⟩], CleanEs_append hes ?_,
      pres_placecur es hes p col⟩
    intro x hx
    rcases List.mem_singleton.mp hx with rfl
    exact rfl
  | placespan lo hi col =>
    rw [applyOp] at hr
    injection hr with hr
    subst hr
    refine ⟨_, CleanEs_append hes ?_, (pres_placespan es hes lo hi col)⟩
    intro x hx
    rcases List.mem_singleton.mp hx with rfl
    exact ⟨rfl, rfl⟩
  | setmode m sel => exact pres_setmode es hes m sel reg2 hr
  | setcolor i col => exact pres_setcolor es hes i col reg2 hr
  | settag i t => exact pres_settag es hes i t hclean reg2 hr

/-- Running clean operations from an invariant registry preserves the
invariant. -/
theorem runAux_inv :
    ∀ (ops : List Op) (reg : Registry), InvR reg → (∀ o ∈ ops, cleanOp o) →
      ∀ reg2, runAux reg ops = some reg2 → InvR reg2 := by
  intro ops
  induction ops with
  | nil =>
    intro reg hinv _ reg2 hr
    rw [runAux] at hr
    injection hr with hr
    subst hr
    exact hinv
  | cons o os ih =>
    intro reg hinv hclean reg2 hr
    rw [runAux] at hr
    rcases ha : applyOp reg o with _ | reg1
    · rw [ha] at hr; cases hr
    · rw [ha] at hr
      exact ih reg1 (applyOp_inv reg o reg1 hinv (hclean o (by simp)) ha)
        (fun x hx => hclean x (by simp [hx])) reg2 hr

/-- The empty registry satisfies the invariant. -/
theorem InvR_empty : InvR emptyReg := ⟨[], fun e he => absurd he (List.not_mem_nil e), rfl⟩

/-- Every registry built by clean public operations satisfies the
invariant. -/
theorem runOps_inv (ops : List Op) (hclean : ∀ o ∈ ops, cleanOp o) (reg : Registry)
    (hr : runOps ops = some reg) : InvR reg :=
  runAux_inv ops emptyReg InvR_empty hclean reg hr

theorem rowOf_cOf (d : CData) (o : Orient) (a k : Nat) (hd : cleanB d.tagPre = true) :
    rowOf (cOf d o a k) = some (rowOne d o k) := by
  rw [rowOf, show (cOf d o a k).text = composeTag d.tagPre k from rfl,
    parseId_composeTag d.tagPre k hd, Option.map_some',
    stripTag_composeTag d.tagPre k hd]
  rfl

theorem collectRows_buildCurs (es : List Entry) (h : CleanEs es) :
    ∀ n, collectRows (buildCurs es n) = some (rowsOf es n) := by
  induction es with
  | nil => intro n; rfl
  | cons e es ih =>
    intro n
    have hes : CleanEs es := CleanEs_tail h
    have he : CleanE e := CleanEs_head h
    cases e with
    | one d =>
      rw [show buildCurs (.one d :: es) n
        = cOf d .vertical n (n + 1) :: buildCurs es (n + 1) from rfl]
      rw [collectRows, rowOf_cOf d _ n (n + 1) he]
      dsimp only
      rw [ih hes (n + 1), Option.map_some']
      rfl
    | two d e2 =>
      rw [show buildCurs (.two d e2 :: es) n = cOf d .vertspan n (n + 1)
        :: cOf e2 .vertspan (n + 1) (n + 2) :: buildCurs es (n + 2) from rfl]
      rw [collectRows, rowOf_cOf d _ n (n + 1) he.1]
      dsimp only
      rw [collectRows, rowOf_cOf e2 _ (n + 1) (n + 2) he.2]
      dsimp only
      rw [ih hes (n + 2), Option.map_some', Option.map_some']
      rfl

theorem rowsOf_first (es : List Entry) (n : Nat) (r : Row) (rs : List Row)
    (h : rowsOf es n = r :: rs) : r.id = n + 1 := by
  cases es with
  | nil => cases h
  | cons e es =>
    cases e with
    | one d =>
      rw [show rowsOf (.one d :: es) n = rowOne d .vertical (n + 1) :: rowsOf es (n + 1)
        from rfl] at h
      injection h with h1 _
      rw [← h1]
      rfl
    | two d e2 =>
      rw [show rowsOf (.two d e2 :: es) n = rowOne d .vertspan (n + 1)
        :: rowOne e2 .vertspan (n + 2) :: rowsOf es (n + 2) from rfl] at h
      injection h with h1 _
      rw [← h1]
      rfl

theorem insRow_head_le (r : Row) (rs : List Row)
    (h : ∀ s ss, rs = s :: ss → r.id ≤ s.id) : insRow r rs = r :: rs := by
  cases rs with
  | nil => rfl
  | cons s ss =>
    rw [insRow, if_pos (h s ss rfl)]

theorem sortById_rowsOf (es : List Entry) : ∀ n, sortById (rowsOf es n) = rowsOf es n := by
  induction es with
  | nil => intro n; rfl
  | cons e es ih =>
    intro n
    cases e with
    | one d =>
      rw [show rowsOf (.one d :: es) n = rowOne d .vertical (n + 1) :: rowsOf es (n + 1)
        from rfl]
      rw [show sortById (rowOne d .vertical (n + 1) :: rowsOf es (n + 1))
        = insRow (rowOne d .vertical (n + 1)) (sortById (rowsOf es (n + 1))) from rfl]
      rw [ih (n + 1)]
      refine insRow_head_le _ _ (fun s ss hs => ?_)
      rw [rowsOf_first es (n + 1) s ss hs]
      show n + 1 ≤ n + 1 + 1
      omega
    | two d e2 =>
      rw [show rowsOf (.two d e2 :: es) n = rowOne d .vertspan (n + 1)
        :: rowOne e2 .vertspan (n + 2) :: rowsOf es (n + 2) from rfl]
      rw [show sortById (rowOne d .vertspan (n + 1) :: rowOne e2 .vertspan (n + 2)
          :: rowsOf es (n + 2))
        = insRow (rowOne d .vertspan (n + 1))
            (insRow (rowOne e2 .vertspan (n + 2)) (sortById (rowsOf es (n + 2)))) from rfl]
      rw [ih (n + 2)]
      have hin : insRow (rowOne e2 .vertspan (n + 2)) (rowsOf es (n + 2))
          = rowOne e2 .vertspan (n + 2) :: rowsOf es (n + 2) := by
        refine insRow_head_le _ _ (fun s ss hs => ?_)
        rw [rowsOf_first es (n + 2) s ss hs]
        show n + 2 ≤ n + 2 + 1
        omega
      rw [hin]
      refine insRow_head_le _ _ (fun s ss hs => ?_)
      injection hs with h1 _
      rw [← h1]
      show (rowOne d Orient.vertspan (n + 1)).id ≤ (rowOne e2 Orient.vertspan (n + 2)).id
      show n + 1 ≤ n + 2
      omega

theorem buildCurs_ne_nil (e : Entry) (es : List Entry) (n : Nat) :
    buildCurs (e :: es) n ≠ [] := by
  cases e <;> simp [buildCurs]

/-- `savecurinfo` of a nonempty assembled registry yields its rows in
cursor order. -/
theorem savecurinfoF_assembleR (es : List Entry) (h : CleanEs es) (hne : es ≠ []) :
    savecurinfoF (assembleR es) = some (rowsOf es 0) := by
  match es, hne with
  | e :: es, _ =>
    rw [savecurinfoF, show (assembleR (e :: es)).curlist = buildCurs (e :: es) 0 from rfl,
      if_neg (buildCurs_ne_nil e es 0), collectRows_buildCurs (e :: es) h 0,
      Option.map_some', sortById_rowsOf (e :: es) 0]

/-! ### Loading the saved rows into a fresh axes -/

theorem loadAux_vertical (r : Row) (hr : r.type = .vertical) (rs : List Row)
    (reg : Registry) (buf : Option Row) :
    loadAux (r :: rs) reg buf =
      (match initcurF (mkCursor reg.curlist reg.nextIdent .vertical .interact "r" r.xpos) r with
       | none => none
       | some c2 =>
         loadAux rs { reg with curlist := reg.curlist ++ [c2],
                               nextIdent := reg.nextIdent + 1 } buf) := by
  cases buf <;> rw [loadAux, hr]

theorem loadAux_vertspan_buffer (r : Row) (hr : r.type = .vertspan) (rs : List Row)
    (reg : Registry) :
    loadAux (r :: rs) reg none = loadAux rs reg (some r) := by
  rw [loadAux, hr]

theorem loadAux_vertspan_pair (r0 r : Row) (hr : r.type = .vertspan) (rs : List Row)
    (reg : Registry) :
    loadAux (r :: rs) reg (some r0) =
      (match initcurF { mkCursor reg.curlist reg.nextIdent .vertspan .interact "r" r0.xpos
               with color := r.color } r0,
             initcurF { mkCursor (reg.curlist
                 ++ [mkCursor reg.curlist reg.nextIdent .vertspan .interact "r" r0.xpos])
                 (reg.nextIdent + 1) .vertspan .interact "r" r.xpos with color := r.color } r with
       | some c1', some c2' =>
         loadAux rs { curlist := reg.curlist ++ [c1', c2'],
                      spanlist := reg.spanlist
                        ++ [{ lowId := reg.nextIdent, highId := reg.nextIdent + 1,
                              poly := mkPoly r0.xpos r.xpos }],
                      nextIdent := reg.nextIdent + 2 } none
       | _, _ => none) := by
  rw [loadAux, hr]
  rfl

/-- `initcur` applied to a freshly created cursor with clean data. -/
theorem initcurF_cOf (d0 : CData) (o : Orient) (a k : Nat) (r : Row)
    (hd : cleanB d0.tagPre = true) :
    initcurF (cOf d0 o a k) r = some (cOf ⟨r.mode, r.color, d0.xpos, r.tag⟩ o a k) := by
  rw [initcurF]
  rw [show ({ cOf d0 o a k with mode := r.mode, color := r.color } : Cursor)
    = cOf ⟨r.mode, r.color, d0.xpos, d0.tagPre⟩ o a k from rfl]
  rw [set_tag_cOf ⟨r.mode, r.color, d0.xpos, d0.tagPre⟩ o a k r.tag hd]

theorem CleanEs_one (d : CData) (hd : cleanB d.tagPre = true) :
    CleanEs [Entry.one d] := by
  intro x hx
  rw [List.mem_singleton] at hx
  subst hx
  exact hd

theorem CleanEs_two (d e : CData) (hd : cleanB d.tagPre = true)
    (he : cleanB e.tagPre = true) : CleanEs [Entry.two d e] := by
  intro x hx
  rw [List.mem_singleton] at hx
  subst hx
  exact ⟨hd, he⟩

theorem assembleR_snoc_one (fs : List Entry) (d : CData) :
    assembleR (fs ++ [.one d])
      = { curlist := buildCurs fs 0 ++ [cOf d .vertical (ccount fs) (ccount fs + 1)],
          spanlist := buildSpans fs 0, nextIdent := ccount fs + 1 } := by
  rw [assembleR]
  rw [buildCurs_append fs [.one d] 0, buildSpans_append fs [.one d] 0,
    ccount_append fs [.one d]]
  rw [show (0 + ccount fs) = ccount fs from by omega]
  rw [show buildCurs [Entry.one d] (ccount fs)
    = [cOf d .vertical (ccount fs) (ccount fs + 1)] from rfl]
  rw [show buildSpans [Entry.one d] (ccount fs) = [] from rfl, List.append_nil]
  rfl

theorem assembleR_snoc_two (fs : List Entry) (d e : CData) :
    assembleR (fs ++ [.two d e])
      = { curlist := buildCurs fs 0 ++ [cOf d .vertspan (ccount fs) (ccount fs + 1),
            cOf e .vertspan (ccount fs + 1) (ccount fs + 2)],
          spanlist := buildSpans fs 0
            ++ [Span.mk (ccount fs) (ccount fs + 1) (mkPoly d.xpos e.xpos)],
          nextIdent := ccount fs + 2 } := by
  rw [assembleR]
  rw [buildCurs_append fs [.two d e] 0, buildSpans_append fs [.two d e] 0,
    ccount_append fs [.two d e]]
  rw [show (0 + ccount fs) = ccount fs from by omega]
  rw [show buildCurs [Entry.two d e] (ccount fs)
    = [cOf d .vertspan (ccount fs) (ccount fs + 1),
       cOf e .vertspan (ccount fs + 1) (ccount fs + 2)] from rfl]
  rw [show buildSpans [Entry.two d e] (ccount fs)
    = [{ lowId := ccount fs, highId := ccount fs + 1, poly := mkPoly d.xpos e.xpos }]
    from rfl]
  rfl

/-- Replaying the rows of clean entries `es` on top of an assembled
registry for `fs` rebuilds the concatenated assembly exactly. -/
theorem loadAux_rowsOf (es : List Entry) (h : CleanEs es) :
    ∀ fs, CleanEs fs →
      loadAux (rowsOf es (ccount fs)) (assembleR fs) none = some (assembleR (fs ++ es)) := by
  induction es with
  | nil =>
    intro fs _
    rw [show rowsOf [] (ccount fs) = [] from rfl, loadAux, List.append_nil]
  | cons e es ih =>
    intro fs hfs
    have hes : CleanEs es := CleanEs_tail h
    have he : CleanE e := CleanEs_head h
    cases e with
    | one d =>
      rw [show rowsOf (.one d :: es) (ccount fs)
        = rowOne d .vertical (ccount fs + 1) :: rowsOf es (ccount fs + 1) from rfl]
      rw [loadAux_vertical (rowOne d .vertical (ccount fs + 1)) rfl]
      have hmk : mkCursor (assembleR fs).curlist (assembleR fs).nextIdent .vertical
          .interact "r" (rowOne d .vertical (ccount fs + 1)).xpos
          = cOf ⟨.interact, "r", d.xpos, ""⟩ .vertical (ccount fs) (ccount fs + 1) := by
        rw [show (assembleR fs).curlist = buildCurs fs 0 from rfl]
        rw [show (assembleR fs).nextIdent = ccount fs from rfl]
        rw [show (rowOne d .vertical (ccount fs + 1)).xpos = d.xpos from rfl]
        rw [mkCursor, initagStr_buildCurs fs hfs]
        rfl
      rw [hmk, initcurF_cOf ⟨.interact, "r", d.xpos, ""⟩ .vertical (ccount fs) (ccount fs + 1)
        (rowOne d .vertical (ccount fs + 1)) rfl]
      dsimp only
      rw [show ({ assembleR fs with
            curlist := (assembleR fs).curlist
              ++ [cOf ⟨(rowOne d .vertical (ccount fs + 1)).mode,
                    (rowOne d .vertical (ccount fs + 1)).color, d.xpos,
                    (rowOne d .vertical (ccount fs + 1)).tag⟩ .vertical (ccount fs)
                    (ccount fs + 1)],
            nextIdent := (assembleR fs).nextIdent + 1 } : Registry)
        = assembleR (fs ++ [.one d]) from by
          rw [assembleR_snoc_one fs d]
          rfl]
      rw [show (ccount fs + 1) = ccount (fs ++ [.one d]) from by
        rw [ccount_append fs [.one d]]
        rfl]
      rw [ih hes (fs ++ [.one d]) (CleanEs_append hfs (CleanEs_one d he))]
      rw [List.append_assoc, List.singleton_append]
    | two d e2 =>
      rw [show rowsOf (.two d e2 :: es) (ccount fs)
        = rowOne d .vertspan (ccount fs + 1)
          :: rowOne e2 .vertspan (ccount fs + 2) :: rowsOf es (ccount fs + 2) from rfl]
      rw [loadAux_vertspan_buffer (rowOne d .vertspan (ccount fs + 1)) rfl]
      rw [loadAux_vertspan_pair (rowOne d .vertspan (ccount fs + 1))
        (rowOne e2 .vertspan (ccount fs + 2)) rfl]
      have hc1 : mkCursor (assembleR fs).curlist (assembleR fs).nextIdent .vertspan
          .interact "r" (rowOne d .vertspan (ccount fs + 1)).xpos
          = cOf ⟨.interact, "r", d.xpos, ""⟩ .vertspan (ccount fs) (ccount fs + 1) := by
        rw [show (assembleR fs).curlist = buildCurs fs 0 from rfl]
        rw [show (assembleR fs).nextIdent = ccount fs from rfl]
        rw [show (rowOne d .vertspan (ccount fs + 1)).xpos = d.xpos from rfl]
        rw [mkCursor, initagStr_buildCurs fs hfs]
        rfl
      have hcoll2 : collectIds (buildCurs fs 0
          ++ [cOf ⟨.interact, "r", d.xpos, ""⟩ .vertspan (ccount fs) (ccount fs + 1)])
          = List.range' 1 (ccount fs + 1) := by
        rw [collectIds_append_one _ _ (ccount fs + 1)
          (parseId_cOf ⟨.interact, "r", d.xpos, ""⟩ .vertspan (ccount fs) (ccount fs + 1) rfl)]
        rw [show collectIds (buildCurs fs 0) = List.range' 1 (ccount fs) from by
          simpa using collectIds_buildCurs fs hfs 0]
        rw [List.range'_concat]
        rw [show (1 : Nat) + 1 * ccount fs = ccount fs + 1 from by omega]
      have hc2 : mkCursor ((assembleR fs).curlist
          ++ [mkCursor (assembleR fs).curlist (assembleR fs).nextIdent .vertspan .interact
                "r" (rowOne d .vertspan (ccount fs + 1)).xpos])
          ((assembleR fs).nextIdent + 1) .vertspan .interact "r"
          (rowOne e2 .vertspan (ccount fs + 2)).xpos
          = cOf ⟨.interact, "r", e2.xpos, ""⟩ .vertspan (ccount fs + 1) (ccount fs + 2) := by
        rw [hc1]
        rw [show (assembleR fs).curlist = buildCurs fs 0 from rfl]
        rw [show (assembleR fs).nextIdent = ccount fs from rfl]
        rw [show (rowOne e2 .vertspan (ccount fs + 2)).xpos = e2.xpos from rfl]
        rw [mkCursor, initagStr_range' _ (ccount fs + 1) hcoll2]
        rfl
      rw [hc2, hc1]
      rw [show ({ cOf ⟨.interact, "r", d.xpos, ""⟩ .vertspan (ccount fs) (ccount fs + 1)
            with color := (rowOne e2 .vertspan (ccount fs + 2)).color } : Cursor)
        = cOf ⟨.interact, e2.color, d.xpos, ""⟩ .vertspan (ccount fs) (ccount fs + 1)
        from rfl]
      rw [show ({ cOf ⟨.interact, "r", e2.xpos, ""⟩ .vertspan (ccount fs + 1) (ccount fs + 2)
            with color := (rowOne e2 .vertspan (ccount fs + 2)).color } : Cursor)
        = cOf ⟨.interact, e2.color, e2.xpos, ""⟩ .vertspan (ccount fs + 1) (ccount fs + 2)
        from rfl]
      rw [initcurF_cOf ⟨.interact, e2.color, d.xpos, ""⟩ .vertspan (ccount fs) (ccount fs + 1)
        (rowOne d .vertspan (ccount fs + 1)) rfl]
      rw [initcurF_cOf ⟨.interact, e2.color, e2.xpos, ""⟩ .vertspan (ccount fs + 1)
        (ccount fs + 2) (rowOne e2 .vertspan (ccount fs + 2)) rfl]
      dsimp only
      have hstep := ih hes (fs ++ [.two d e2]) (CleanEs_append hfs (CleanEs_two d e2 he.1 he.2))
      rw [assembleR_snoc_two fs d e2] at hstep
      rw [show ccount (fs ++ [.two d e2]) = ccount fs + 2 from by
        rw [ccount_append fs [.two d e2]]
        rfl] at hstep
      rw [List.append_assoc, List.singleton_append] at hstep
      exact hstep

/-- C1 (amended): if every tag written is free of id tokens and the
registry is nonempty, then `savecurinfo` followed by `loadcurinfo`
into a fresh axes rebuilds the registry exactly — in particular with
the same layout of markers and spans.  The claim's unrestricted form
is refuted by `c1_roundtrip_counterexample`: a tag name containing an
id token shifts the saved ids, `savecurinfo`'s sort reorders the rows,
and `loadcurinfo` re-pairs the span endpoints differently. -/
theorem c1_roundtrip (ops : List Op) (reg : Registry)
    (hclean : ∀ o ∈ ops, cleanOp o) (hrun : runOps ops = some reg)
    (hne : reg.curlist ≠ []) :
    ∃ rows, savecurinfoF reg = some rows ∧ loadcurinfoF rows = some reg
      ∧ sameLayout reg reg := by
  obtain ⟨es, hes, rfl⟩ := runOps_inv ops hclean reg hrun
  have hesne : es ≠ [] := by
    intro h
    subst h
    exact hne rfl
  refine ⟨rowsOf es 0, savecurinfoF_assembleR es hes hesne, ?_,
    List.Perm.refl _, List.Perm.refl _⟩
  rw [loadcurinfoF]
  exact loadAux_rowsOf es hes [] (fun e he => absurd he (List.not_mem_nil e))

theorem c1_roundtrip_witness :
    ∃ rows, savecurinfoF regW1 = some rows ∧ loadcurinfoF rows = some regW1
      ∧ sameLayout regW1 regW1 :=
  c1_roundtrip opsW1 regW1 (by decide) (by decide) (by decide)

/-- C1, counterexample to the unrestricted claim: after two spans and
a `settag` that embeds the token `(0)` in a label, saving and loading
produces a registry whose spans pair different endpoint positions
(40 with 10 and 20 with 30 instead of 10 with 20 and 30 with 40), so
the layout is not reproduced even up to display-id renumbering. -/
theorem c1_roundtrip_counterexample :
    runOps opsC1 = some regC1
      ∧ (savecurinfoF regC1).bind loadcurinfoF = some regC1load
      ∧ ¬ sameLayout regC1 regC1load :=
  ⟨by decide, by decide, by decide⟩

/-- `initag` always produces a label of token shape with empty prefix. -/
theorem initagStr_composeTag (cs : List Cursor) :
    ∃ k, initagStr cs = composeTag "" k := by
  rw [initagStr]
  rcases h : collectIds cs with _ | ⟨a, l⟩
  · exact ⟨1, by decide⟩
  · refine ⟨maxNat (a :: l) + 1, ?_⟩
    have h0 : ("" : String).data = [] := rfl
    rw [composeTag, h0, List.nil_append]

/-- Every freshly constructed cursor is a `cOf` for some display id. -/
theorem mkCursor_cOf (cs : List Cursor) (i : Nat) (o : Orient) (m : Mode)
    (col : String) (p : Int) :
    ∃ k, mkCursor cs i o m col p = cOf ⟨m, col, p, ""⟩ o i k := by
  obtain ⟨k, hk⟩ := initagStr_composeTag cs
  refine ⟨k, ?_⟩
  rw [mkCursor, hk]
  rfl

/-- `initcur` never fails on a freshly constructed cursor: its label
always holds an id token for `set_tag` to find. -/
theorem initcurF_mk_isSome (cs : List Cursor) (i : Nat) (o : Orient) (m : Mode)
    (col : String) (p : Int) (r : Row) :
    ∃ c2, initcurF (mkCursor cs i o m col p) r = some c2 := by
  obtain ⟨k, hk⟩ := mkCursor_cOf cs i o m col p
  rw [hk, initcurF_cOf ⟨m, col, p, ""⟩ o i k r rfl]
  exact ⟨_, rfl⟩

/-- The load loop always returns a registry: it installs one cursor
per `vertical` row and one span (two cursors) per completed pair of
`vertspan` rows, and silently discards an unpaired trailing buffer. -/
theorem loadAux_total (rows : List Row) :
    ∀ reg buf, ∃ reg2, loadAux rows reg buf = some reg2
      ∧ reg2.curlist.length
          = reg.curlist.length + countVert rows + 2 * ((bufN buf + countVspan rows) / 2)
      ∧ reg2.spanlist.length = reg.spanlist.length + (bufN buf + countVspan rows) / 2 := by
  induction rows with
  | nil =>
    intro reg buf
    refine ⟨reg, rfl, ?_, ?_⟩ <;> cases buf <;> simp [countVert, countVspan, bufN]
  | cons r rs ih =>
    intro reg buf
    rcases htype : r.type with _ | _
    · -- vertical row
      obtain ⟨c2, hc2⟩ := initcurF_mk_isSome reg.curlist reg.nextIdent .vertical
        .interact "r" r.xpos r
      rw [loadAux_vertical r htype, hc2]
      obtain ⟨reg2, h1, h2, h3⟩ := ih _ buf
      refine ⟨reg2, h1, ?_, ?_⟩
      · rw [h2]
        simp [countVert, countVspan, htype]
        omega
      · rw [h3]
        simp [countVspan, htype]
    · -- vertspan row
      cases buf with
      | none =>
        rw [loadAux_vertspan_buffer r htype]
        obtain ⟨reg2, h1, h2, h3⟩ := ih reg (some r)
        refine ⟨reg2, h1, ?_, ?_⟩
        · rw [h2]
          simp [countVert, countVspan, bufN, htype]
        · rw [h3]
          simp [countVspan, bufN, htype]
      | some r0 =>
        rw [loadAux_vertspan_pair r0 r htype]
        obtain ⟨k1, hk1⟩ := mkCursor_cOf reg.curlist reg.nextIdent .vertspan
          .interact "r" r0.xpos
        rw [hk1]
        rw [show ({ cOf ⟨.interact, "r", r0.xpos, ""⟩ .vertspan reg.nextIdent k1
              with color := r.color } : Cursor)
          = cOf ⟨.interact, r.color, r0.xpos, ""⟩ .vertspan reg.nextIdent k1 from rfl]
        rw [initcurF_cOf ⟨.interact, r.color, r0.xpos, ""⟩ .vertspan reg.nextIdent k1 r0 rfl]
        obtain ⟨k2, hk2⟩ := mkCursor_cOf
          (reg.curlist ++ [cOf ⟨.interact, "r", r0.xpos, ""⟩ .vertspan reg.nextIdent k1])
          (reg.nextIdent + 1) .vertspan .interact "r" r.xpos
        rw [hk2]
        rw [show ({ cOf ⟨.interact, "r", r.xpos, ""⟩ .vertspan (reg.nextIdent + 1) k2
              with color := r.color } : Cursor)
          = cOf ⟨.interact, r.color, r.xpos, ""⟩ .vertspan (reg.nextIdent + 1) k2 from rfl]
        rw [initcurF_cOf ⟨.interact, r.color, r.xpos, ""⟩ .vertspan (reg.nextIdent + 1)
          k2 r rfl]
        dsimp only
        obtain ⟨reg2, h1, h2, h3⟩ := ih _ none
        refine ⟨reg2, h1, ?_, ?_⟩
        · rw [h2]
          simp [countVert, countVspan, bufN, htype]
          omega
        · rw [h3]
          simp [countVspan, bufN, htype]
          omega

/-- C2 (refuting the claim): `loadcurinfo` never aborts.  For any
input record it returns a registry holding one marker per `vertical`
row and one span per completed pair of `vertspan` rows; a trailing
unpaired `vertspan` row is silently discarded rather than reported:
the function completes normally.  The concrete silent drop is
`c2_unpaired_counterexample`. -/
theorem c2_load_never_aborts (rows : List Row) :
    ∃ reg, loadcurinfoF rows = some reg
      ∧ reg.curlist.length = countVert rows + 2 * (countVspan rows / 2)
      ∧ reg.spanlist.length = countVspan rows / 2 := by
  obtain ⟨reg, h1, h2, h3⟩ := loadAux_total rows emptyReg none
  refine ⟨reg, h1, ?_, ?_⟩
  · rw [h2]
    show 0 + countVert rows + 2 * ((0 + countVspan rows) / 2)
      = countVert rows + 2 * (countVspan rows / 2)
    omega
  · rw [h3]
    show 0 + (0 + countVspan rows) / 2 = countVspan rows / 2
    omega

/-- C2, counterexample: a record consisting of one unpaired
`vertspan` endpoint row loads without any error, producing the empty
registry — the trailing endpoint is dropped with no report, and the
load completes normally instead of aborting. -/
theorem c2_unpaired_counterexample :
    loadcurinfoF [⟨5, "x", 3, .vertspan, .interact, "r"⟩] = some emptyReg := by decide

/-! ### C3: label scanning never raises in initag, but get_id does -/

/-- C3 (amended): on a label holding an id token, both `get_id` and
the scan inside `initag` return its integer; on a label with no token,
`initag`'s scan returns nothing (the `try/except` turns the failure
into a skip), but `get_id` raises `AttributeError` (calling `.group`
on the `None` returned by `re.search`) instead of returning a
NOT_FOUND value. -/
theorem c3_get_id_initag (s : String) :
    (HasTok s → ∃ k, get_id s = .ok k ∧ initagScan1 s = some k)
      ∧ (¬ HasTok s → get_id s = .error .attributeError ∧ initagScan1 s = none) := by
  constructor
  · intro h
    obtain ⟨pre, ds, r, hdec, hne, hds⟩ := h
    have hsome := scanTok_isSome_of_decomp pre ds r hne hds
    rw [← hdec] at hsome
    obtain ⟨ds2, hds2⟩ := Option.isSome_iff_exists.mp hsome
    refine ⟨digitsVal ds2, ?_, ?_⟩
    · rw [get_id, hds2]
    · rw [initagScan1, hds2]
  · intro h
    rcases hscan : scanTok s.data with _ | ds
    · exact ⟨by rw [get_id, hscan], by rw [initagScan1, hscan]⟩
    · exfalso
      obtain ⟨pre, r, hdec, hne, hds⟩ := scanTok_some_decomp s.data ds hscan
      exact h ⟨pre, ds, r, hdec, hne, hds⟩

/-- C3, counterexample: on the tokenless label `"hello"`, `get_id`
raises `AttributeError` — it does not return a NOT_FOUND result. -/
theorem c3_get_id_counterexample : get_id "hello" = .error .attributeError := by decide

/-! ### C4: span deletion removes both endpoints and the span -/

theorem not_mem_eraseIdx_of_nodup {α : Type} (l : List α) (si : Nat) (x : α)
    (h : l.Nodup) (hg : l[si]? = some x) : x ∉ l.eraseIdx si := by
  intro hm
  rw [List.mem_eraseIdx_iff_getElem?] at hm
  obtain ⟨j, hj, hjg⟩ := hm
  have hlt : j < l.length := by
    rcases List.getElem?_eq_some.mp hjg with ⟨hl, _⟩
    exact hl
  exact hj (List.getElem?_inj hlt h (hjg.trans hg.symm))

/-- The `getcur` loop over labels that all parse but none of which
matches prints `Cursor ID not found!` and returns `None`. -/
theorem getcurAux_ok_none (cs : List Cursor) (i : Nat)
    (hp : ∀ c ∈ cs, (parseId c.text).isSome = true)
    (hni : ∀ c ∈ cs, parseId c.text ≠ some i) :
    getcurAux cs i = .ok none := by
  induction cs with
  | nil => rfl
  | cons c cs ih =>
    obtain ⟨k, hk⟩ := Option.isSome_iff_exists.mp (hp c (List.mem_cons_self c cs))
    have hki : k ≠ i := fun h => hni c (List.mem_cons_self c cs) (by rw [hk, h])
    rw [getcurAux, hk]
    dsimp only
    rw [if_neg hki,
      ih (fun x hx => hp x (List.mem_cons_of_mem c hx))
        (fun x hx => hni x (List.mem_cons_of_mem c hx))]
    rfl

/-- C4: deleting a span removes both endpoint cursors from
`ax.curlist` (removal is by object identity) and the span from
`ax.spanlist`, and afterwards `getcur` on either former endpoint's
display id reports not-found (`None`) — provided every remaining label
parses (else `getcur` raises), display ids are unique, and the span
list has no duplicate entry. -/
theorem c4_delspan (reg : Registry) (si : Nat) (sp : Span) (cl ch : Cursor) (idl idh : Nat)
    (hsp : reg.spanlist[si]? = some sp)
    (hnodupSp : reg.spanlist.Nodup)
    (hparse : ∀ c ∈ reg.curlist, (parseId c.text).isSome = true)
    (hinj : (reg.curlist.map (fun c => parseId c.text)).Nodup)
    (hclm : cl ∈ reg.curlist) (hcli : cl.ident = sp.lowId)
    (hclp : parseId cl.text = some idl)
    (hchm : ch ∈ reg.curlist) (hchi : ch.ident = sp.highId)
    (hchp : parseId ch.text = some idh) :
    ∃ reg2, delspanF reg si = some reg2
      ∧ (∀ c ∈ reg2.curlist, c.ident ≠ sp.lowId ∧ c.ident ≠ sp.highId)
      ∧ sp ∉ reg2.spanlist
      ∧ getcurF reg2 idl = .ok none
      ∧ getcurF reg2 idh = .ok none := by
  have hdel : delspanF reg si
      = some ⟨(reg.curlist.filter (fun c => c.ident != sp.lowId)).filter
          (fun c => c.ident != sp.highId), reg.spanlist.eraseIdx si, reg.nextIdent⟩ := by
    rw [delspanF, hsp]
    rfl
  refine ⟨_, hdel, ?_, ?_, ?_, ?_⟩
  · intro c hc
    have h2 := List.mem_filter.mp hc
    have h1 := List.mem_filter.mp h2.1
    exact ⟨by simpa using h1.2, by simpa using h2.2⟩
  · exact not_mem_eraseIdx_of_nodup reg.spanlist si sp hnodupSp hsp
  · rw [getcurF]
    rw [show (⟨(reg.curlist.filter (fun c => c.ident != sp.lowId)).filter
          (fun c => c.ident != sp.highId), reg.spanlist.eraseIdx si, reg.nextIdent⟩
        : Registry).curlist
      = (reg.curlist.filter (fun c => c.ident != sp.lowId)).filter
          (fun c => c.ident != sp.highId) from rfl]
    rw [getcurAux_ok_none _ idl
      (fun c hc => hparse c (List.mem_filter.mp (List.mem_filter.mp hc).1).1)
      (fun c hc heq => by
        have h2 := List.mem_filter.mp hc
        have h1 := List.mem_filter.mp h2.1
        have hceq : c = cl :=
          List.inj_on_of_nodup_map hinj h1.1 hclm (heq.trans hclp.symm)
        have : c.ident ≠ sp.lowId := by simpa using h1.2
        exact this (hceq ▸ hcli))]
    rfl
  · rw [getcurF]
    rw [show (⟨(reg.curlist.filter (fun c => c.ident != sp.lowId)).filter
          (fun c => c.ident != sp.highId), reg.spanlist.eraseIdx si, reg.nextIdent⟩
        : Registry).curlist
      = (reg.curlist.filter (fun c => c.ident != sp.lowId)).filter
          (fun c => c.ident != sp.highId) from rfl]
    rw [getcurAux_ok_none _ idh
      (fun c hc => hparse c (List.mem_filter.mp (List.mem_filter.mp hc).1).1)
      (fun c hc heq => by
        have h2 := List.mem_filter.mp hc
        have hceq : c = ch :=
          List.inj_on_of_nodup_map hinj (List.mem_filter.mp h2.1).1 hchm
            (heq.trans hchp.symm)
        have : c.ident ≠ sp.highId := by simpa using h2.2
        exact this (hceq ▸ hchi))]
    rfl

theorem c4_delspan_witness :
    ∃ reg2, delspanF regW4 0 = some reg2
      ∧ (∀ c ∈ reg2.curlist, c.ident ≠ (⟨0, 1, mkPoly 10 20⟩ : Span).lowId
          ∧ c.ident ≠ (⟨0, 1, mkPoly 10 20⟩ : Span).highId)
      ∧ (⟨0, 1, mkPoly 10 20⟩ : Span) ∉ reg2.spanlist
      ∧ getcurF reg2 1 = .ok none
      ∧ getcurF reg2 2 = .ok none :=
  c4_delspan regW4 0 ⟨0, 1, mkPoly 10 20⟩
    ⟨0, .vertspan, .interact, "r", 10, "(1)", none⟩
    ⟨1, .vertspan, .interact, "r", 20, "(2)", none⟩ 1 2
    (by decide) (by decide) (by decide) (by decide) (by decide) (by decide)
    (by decide) (by decide) (by decide) (by decide)

/-- The rewritten fill covers exactly `[min, max]` of the two endpoint
positions, whichever order they are in. -/
theorem polyXBounds_mkPoly (l h : Int) :
    polyXBounds (mkPoly l h) = some (min l h, max l h) := by
  rw [show polyXBounds (mkPoly l h)
    = some ((min (min (min (min l l) h) h) l), (max (max (max (max l l) h) h) l)) from rfl]
  rw [show min (min (min (min l l) h) h) l = min l h from by omega,
    show max (max (max (max l l) h) h) l = max l h from by omega]

/-- C5: a motion event delivered while a span endpoint holds the drag
capture moves the endpoint to `event.xdata` and immediately rewrites
the owning span's fill polygon from both endpoints' current positions;
the polygon's x extent is `[min, max]` of the two positions, also when
the dragged endpoint has crossed the other one. -/
theorem c5_motion_updates_fill (reg : Registry) (j : Nat) (e : MEvent)
    (c : Cursor) (si : Nat) (sp : Span) (cl ch : Cursor)
    (hc : reg.curlist[j]? = some c)
    (hpress : ¬ c.press = none)
    (hin : e.inaxes = true)
    (horient : c.orient = .vertspan)
    (hfind : reg.spanlist.findIdx?
      (fun sp => sp.lowId == c.ident || sp.highId == c.ident) = some si)
    (hsp : reg.spanlist[si]? = some sp)
    (hcl : (reg.curlist.set j { c with xpos := e.xdata }).find?
      (fun x => x.ident == sp.lowId) = some cl)
    (hch : (reg.curlist.set j { c with xpos := e.xdata }).find?
      (fun x => x.ident == sp.highId) = some ch) :
    ∃ reg2, on_motionReg reg j e = some reg2
      ∧ reg2.spanlist[si]? = some { sp with poly := mkPoly cl.xpos ch.xpos }
      ∧ polyXBounds (mkPoly cl.xpos ch.xpos)
          = some (min cl.xpos ch.xpos, max cl.xpos ch.xpos)
      ∧ reg2.curlist[j]? = some { c with xpos := e.xdata } := by
  rw [on_motionReg, hc]
  dsimp only
  rw [if_neg hpress, if_neg (by rw [hin]; exact fun h => h rfl), if_pos horient]
  rw [hfind]
  dsimp only
  rw [hsp]
  dsimp only
  rw [updatespanF]
  dsimp only
  rw [hcl, hch]
  dsimp only
  rw [Option.map_some']
  refine ⟨_, rfl, ?_, polyXBounds_mkPoly cl.xpos ch.xpos, ?_⟩
  · dsimp only
    rw [List.getElem?_set_self ((List.getElem?_eq_some.mp hsp).1)]
  · dsimp only
    rw [List.getElem?_set_self ((List.getElem?_eq_some.mp hc).1)]

theorem c5_motion_updates_fill_witness :
    ∃ reg2, on_motionReg regW5 0 ⟨1, 9, 0, true, true⟩ = some reg2
      ∧ reg2.spanlist[0]? = some { (⟨0, 1, mkPoly 2 4⟩ : Span) with poly := mkPoly 9 4 }
      ∧ polyXBounds (mkPoly 9 4) = some (min 9 4, max 9 4)
      ∧ reg2.curlist[0]? = some ⟨0, .vertspan, .interact, "r", 9, "(1)", some (2, 0, 2, 0)⟩ :=
  c5_motion_updates_fill regW5 0 ⟨1, 9, 0, true, true⟩
    ⟨0, .vertspan, .interact, "r", 2, "(1)", some (2, 0, 2, 0)⟩ 0 ⟨0, 1, mkPoly 2 4⟩
    ⟨0, .vertspan, .interact, "r", 9, "(1)", some (2, 0, 2, 0)⟩
    ⟨1, .vertspan, .interact, "r", 4, "(2)", none⟩
    (by decide) (by decide) (by decide) (by decide) (by decide) (by decide)
    (by decide) (by decide)

/-! ### C6: display id allocation -/

theorem ccount_replicate (n : Nat) (d : CData) :
    ccount (List.replicate n (.one d)) = n := by
  induction n with
  | zero => rfl
  | succ n ih =>
    rw [List.replicate_succ, ccount, ih]
    show 1 + n = n + 1
    omega

theorem CleanEs_replicate (n : Nat) (d : CData) (hd : cleanB d.tagPre = true) :
    CleanEs (List.replicate n (.one d)) := by
  intro e he
  rw [List.eq_of_mem_replicate he]
  exact hd

/-- Placing `m` default cursors on an assembled registry appends `m`
standalone entries. -/
theorem runAux_placecur (m : Nat) : ∀ es, CleanEs es →
    runAux (assembleR es) (List.replicate m (.placecur 0 "r"))
      = some (assembleR (es ++ List.replicate m (Entry.one ⟨.interact, "r", 0, ""⟩))) := by
  induction m with
  | zero =>
    intro es _
    rw [List.replicate_zero, List.replicate_zero, runAux, List.append_nil]
  | succ m ih =>
    intro es hes
    rw [List.replicate_succ, runAux]
    rw [show applyOp (assembleR es) (.placecur 0 "r")
      = some (placecursorF (assembleR es) 0 "r") from rfl]
    dsimp only
    rw [pres_placecur es hes 0 "r",
      ih (es ++ [.one ⟨.interact, "r", 0, ""⟩])
        (CleanEs_append hes (CleanEs_one ⟨.interact, "r", 0, ""⟩ rfl)),
      List.append_assoc, List.singleton_append, ← List.replicate_succ]

/-- C6: `initag` labels a new marker with display id `max + 1` over
the ids already present, or `1` when none parses; consequently `n`
marker creations from the empty registry allocate exactly the ids
`1, ..., n`, pairwise distinct. -/
theorem c6_display_ids :
    (∀ cs, parseId (initagStr cs)
        = some (if collectIds cs = [] then 1 else maxNat (collectIds cs) + 1))
      ∧ (∀ n, ∃ reg, runOps (List.replicate n (.placecur 0 "r")) = some reg
          ∧ collectIds reg.curlist = List.range' 1 n
          ∧ (collectIds reg.curlist).Nodup) := by
  constructor
  · intro cs
    rcases h : collectIds cs with _ | ⟨a, l⟩
    · rw [initagStr, h, if_pos rfl]
      decide
    · rw [initagStr, h, if_neg (List.cons_ne_nil a l)]
      dsimp only
      rw [show (⟨'(' :: (natDigits (maxNat (a :: l) + 1) ++ [')'])⟩ : String)
        = composeTag "" (maxNat (a :: l) + 1) from by
          rw [composeTag, show ("" : String).data = [] from rfl, List.nil_append]]
      rw [parseId_composeTag "" (maxNat (a :: l) + 1) rfl]
  · intro n
    refine ⟨assembleR (List.replicate n (Entry.one ⟨.interact, "r", 0, ""⟩)), ?_, ?_, ?_⟩
    · rw [runOps]
      have h := runAux_placecur n [] (fun e he => absurd he (List.not_mem_nil e))
      rw [List.nil_append] at h
      exact h
    · rw [show (assembleR (List.replicate n (Entry.one ⟨.interact, "r", 0, ""⟩))).curlist
        = buildCurs (List.replicate n (Entry.one ⟨.interact, "r", 0, ""⟩)) 0 from rfl]
      have h := collectIds_buildCurs (List.replicate n (Entry.one ⟨.interact, "r", 0, ""⟩))
        (CleanEs_replicate n _ rfl) 0
      rw [ccount_replicate] at h
      simpa using h
    · rw [show (assembleR (List.replicate n (Entry.one ⟨.interact, "r", 0, ""⟩))).curlist
        = buildCurs (List.replicate n (Entry.one ⟨.interact, "r", 0, ""⟩)) 0 from rfl]
      have h := collectIds_buildCurs (List.replicate n (Entry.one ⟨.interact, "r", 0, ""⟩))
        (CleanEs_replicate n _ rfl) 0
      rw [ccount_replicate] at h
      rw [show (0 : Nat) + 1 = 1 from rfl] at h
      rw [h]
      exact List.nodup_range' 1 n

/-! ### C7: FIXED markers ignore presses and never move -/

/-- Any single pointer event leaves a FIXED, idle cursor exactly as it
is: a press bails out at the mode guard (or the axes guard), a motion
bails out because no press was captured, and a release clears a
capture that is already clear. -/
theorem applyEv_fixed (c : Cursor) (ev : Ev)
    (hm : c.mode = .fixed) (hp : c.press = none) : applyEv c ev = c := by
  cases ev with
  | press nav e =>
    rw [applyEv, on_press]
    by_cases hin : e.inaxes = true
    · rw [if_neg (by rw [hin]; exact fun h => h rfl), if_pos hm]
    · rw [if_pos hin]
  | motion e =>
    rw [applyEv, on_motion, if_pos hp]
  | release e =>
    rw [applyEv, on_release, ← hp]

theorem applyEvs_fixed (c : Cursor) (hm : c.mode = .fixed) (hp : c.press = none) :
    ∀ evs, applyEvs c evs = c := by
  intro evs
  induction evs with
  | nil => rfl
  | cons ev evs ih =>
    rw [applyEvs, List.foldl_cons, applyEv_fixed c ev hm hp]
    exact ih

/-- C7: `setcursormode('fixed', 'all')` succeeds and puts every cursor
in FIXED mode, and a FIXED cursor with no captured press is left
completely unchanged by any sequence of press, motion and release
events — in particular its position never changes and it never
captures a drag. -/
theorem c7_fixed_never_drags :
    (∀ reg, ∃ reg2, setcursormodeF reg .fixed .all = some reg2
        ∧ ∀ c ∈ reg2.curlist, c.mode = .fixed)
      ∧ (∀ c evs, c.mode = .fixed → c.press = none →
          applyEvs c evs = c
            ∧ (applyEvs c evs).xpos = c.xpos ∧ (applyEvs c evs).press = none) := by
  constructor
  · intro reg
    rw [setcursormodeF]
    refine ⟨_, rfl, ?_⟩
    intro c hc
    obtain ⟨c0, _, rfl⟩ := List.mem_map.mp hc
    rfl
  · intro c evs hm hp
    have h := applyEvs_fixed c hm hp evs
    exact ⟨h, by rw [h], by rw [h, hp]⟩

/-! ### C8: secondary-button press -/

/-- C8 (amended): a secondary press that hits an interactable marker
always writes the drag capture first; then a standalone marker is
immediately deleted, while a span endpoint is kept — but, contrary to
the claim, the press is not a no-op for the endpoint: it leaves the
endpoint holding the drag capture, so a following motion event drags
it. -/
theorem c8_secondary_press (c : Cursor) (e : MEvent)
    (hin : e.inaxes = true) (hfx : ¬ c.mode = .fixed) (hhit : e.hits = true)
    (hb : e.button = 3) :
    (¬ c.orient = .vertspan →
        on_press false c e = ({ c with press := some (c.xpos, 0, e.xdata, e.ydata) }, true))
      ∧ (c.orient = .vertspan →
        on_press false c e
          = ({ c with press := some (c.xpos, 0, e.xdata, e.ydata) }, false)) := by
  constructor
  · intro horient
    rw [on_press, if_neg (by rw [hin]; exact fun h => h rfl), if_neg hfx,
      if_neg (fun h => by cases h), if_neg (by rw [hhit]; exact fun h => h rfl)]
    dsimp only
    rw [if_pos ⟨hb, horient⟩]
  · intro horient
    rw [on_press, if_neg (by rw [hin]; exact fun h => h rfl), if_neg hfx,
      if_neg (fun h => by cases h), if_neg (by rw [hhit]; exact fun h => h rfl)]
    dsimp only
    rw [if_neg (fun h => h.2 horient)]

theorem c8_secondary_press_witness :
    (¬ (⟨0, .vertical, .interact, "r", 5, "(1)", none⟩ : Cursor).orient = .vertspan →
        on_press false ⟨0, .vertical, .interact, "r", 5, "(1)", none⟩ ⟨3, 7, 0, true, true⟩
          = (⟨0, .vertical, .interact, "r", 5, "(1)", some (5, 0, 7, 0)⟩, true))
      ∧ ((⟨0, .vertical, .interact, "r", 5, "(1)", none⟩ : Cursor).orient = .vertspan →
        on_press false ⟨0, .vertical, .interact, "r", 5, "(1)", none⟩ ⟨3, 7, 0, true, true⟩
          = (⟨0, .vertical, .interact, "r", 5, "(1)", some (5, 0, 7, 0)⟩, false)) :=
  c8_secondary_press ⟨0, .vertical, .interact, "r", 5, "(1)", none⟩ ⟨3, 7, 0, true, true⟩
    (by decide) (by decide) (by decide) (by decide)

/-- C8, counterexample to the no-op half of the claim: a secondary
press on an interactable span endpoint is not ignored — the endpoint
is kept (no deletion), but its drag capture is set, so the press
changes the marker's state. -/
theorem c8_endpoint_press_counterexample :
    (on_press false ⟨0, .vertspan, .interact, "r", 5, "(1)", none⟩ ⟨3, 7, 0, true, true⟩).2
        = false
      ∧ (on_press false ⟨0, .vertspan, .interact, "r", 5, "(1)", none⟩
          ⟨3, 7, 0, true, true⟩).1.press = some (5, 0, 7, 0)
      ∧ ¬ (on_press false ⟨0, .vertspan, .interact, "r", 5, "(1)", none⟩
          ⟨3, 7, 0, true, true⟩).1
            = ⟨0, .vertspan, .interact, "r", 5, "(1)", none⟩ := by decide

/-! ### C9: release always clears the drag capture -/

/-- C9: `_on_release` clears the drag capture unconditionally — the
event is not consulted, so this holds also for a release outside the
plot area — it never moves the cursor, and it is idempotent: a second
release (any event) leaves the cursor exactly as the first one did. -/
theorem c9_release_clears (c : Cursor) (e e2 : MEvent) :
    (on_release c e).press = none
      ∧ (on_release c e).xpos = c.xpos
      ∧ on_release (on_release c e) e2 = on_release c e :=
  ⟨rfl, rfl, rfl⟩

/-! ### C10: arming the placement handlers with explicit axes -/

/-- C10: with any explicit axes argument, `curonclick` and
`spanonclick` raise `UnboundLocalError` before connecting anything —
the local `fig` is only assigned on the `'current'` branch — while the
default-argument path succeeds and stores the new callback connection
id on the figure. -/
theorem c10_explicit_axes_raises (axId : Nat) (fig : FigSt) (newCid : Nat) :
    curonclickF (.explicit axId) fig newCid = .error .unboundLocal
      ∧ spanonclickF (.explicit axId) fig newCid = .error .unboundLocal
      ∧ curonclickF .current fig newCid = .ok ⟨some newCid⟩
      ∧ spanonclickF .current fig newCid = .ok ⟨some newCid⟩ :=
  ⟨rfl, rfl, rfl, rfl⟩

end Cursortools
